import Mathlib

/-!
# k6 `lib/netext` dialer and `stats/influxdb` config: a shallow embedding

The definitions follow `src/lib/netext/dialer.go` and `src/stats/influxdb/config.go`.

Conventions of the embedding

* A Go `string` is a Lean `String`; indices into it count characters.  The only
  indexing the dialer does is at the position of the ASCII byte `:`, which never
  occurs inside a multi-byte UTF-8 sequence, so the pieces cut out are the same.
* A Go `int64` is an integer of the range `[-2^63, 2^63)`; `atomic.AddInt64` wraps.
  A Go `int` is at most 64 bits wide, so every `int` is such a value too and
  `int64(n)` keeps it.
* A Go `(value, error)` result is a pair whose second component is `none` for `nil`.
* A run-time panic is an explicit outcome.
* Calls to collaborators that the dialer only holds a handle of (the DNS cache,
  the base `net.Dialer`, the wrapped `net.Conn`) are functions stored in the
  state; each call made is recorded in a trace.
* `net.IP`, `net.IPNet` and their methods `To4`, `String`, `Contains` are the Go
  standard library's; they are modelled after its source (Go 1.10, the toolchain
  of this revision of k6).
-/

namespace K6

set_option linter.dupNamespace false

/-! ## Machine integers -/

/-- Two's-complement reduction of an integer to the range of `int64`. -/
def wrap64 (x : Int) : Int :=
  (x + 9223372036854775808) % 18446744073709551616 - 9223372036854775808

/-- A Go `int64`. -/
abbrev Int64 : Type := { x : Int // -9223372036854775808 ≤ x ∧ x ≤ 9223372036854775807 }

/-- Conversion to `int64`, truncating as Go does. -/
def Int64.ofInt (x : Int) : Int64 :=
  ⟨wrap64 x, by unfold wrap64; omega⟩

/-- Go's `a + b` on `int64`: the sum wraps around. -/
def Int64.add (a b : Int64) : Int64 := Int64.ofInt (a.val + b.val)

/-- The `int64` zero. -/
def Int64.zero : Int64 := ⟨0, by decide⟩

/-- A Go `int`; the widest `int` is 64 bits. -/
abbrev GoInt : Type := Int64

/-! ## Strings -/

/-- The backwards scan of `strings.LastIndex(s, c)` for a one-byte `c`: the
greatest index below `n` holding `c`, or `-1`. -/
def lastIndexFrom (s : List Char) (c : Char) : Nat → Int
  | 0 => -1
  | i + 1 => if s.getD i default = c then (i : Int) else lastIndexFrom s c i

/-- Go's `strings.LastIndex(s, string(c))`. -/
def LastIndex (s : String) (c : Char) : Int :=
  lastIndexFrom s.data c s.length

/-- The slice expression `s[:hi]`; `none` is the run-time panic
"slice bounds out of range". -/
def sliceTo (s : String) (hi : Int) : Option String :=
  if 0 ≤ hi ∧ hi ≤ (s.length : Int) then some (String.mk (s.data.take hi.toNat)) else none

/-- The slice expression `s[lo:]`; `none` is the run-time panic. -/
def sliceFrom (s : String) (lo : Int) : Option String :=
  if 0 ≤ lo ∧ lo ≤ (s.length : Int) then some (String.mk (s.data.drop lo.toNat)) else none

/-- Go's `strings.ContainsRune(s, r)`. -/
def ContainsRune (s : String) (r : Char) : Bool :=
  s.data.elem r

/-! ## `net.IP` and `net.IPNet` (Go standard library) -/

/-- A Go `byte`. -/
abbrev Byte : Type := Fin 256

/-- A `net.IP`: a byte slice; the nil slice is the empty list. -/
abbrev IP : Type := List Byte

/-- A `net.IPMask`. -/
abbrev IPMask : Type := List Byte

/-- A `net.IPNet`. -/
structure IPNet where
  IP : IP
  Mask : IPMask
  deriving DecidableEq, Repr

/-- Length of an IPv4 address in bytes. -/
def IPv4len : Nat := 4

/-- Length of an IPv6 address in bytes. -/
def IPv6len : Nat := 16

/-- Go's `isZeros`. -/
def isZeros (p : IP) : Bool :=
  p.all (fun b => b = 0)

/-- Go's `IP.To4`: the 4-byte form of an IPv4 address (given in 4 bytes or as
an IPv4-mapped 16 bytes), nil otherwise. -/
def IP.To4 (ip : IP) : IP :=
  if ip.length = IPv4len then ip
  else if ip.length = IPv6len ∧ isZeros (ip.take 10) = true ∧ ip.getD 10 0 = 0xff
      ∧ ip.getD 11 0 = 0xff then
    (ip.drop 12).take 4
  else []

/-- Go's `networkNumberAndMask`. -/
def networkNumberAndMask (n : IPNet) : IP × IPMask :=
  let ip4 := IP.To4 n.IP
  if ip4 = [] ∧ n.IP.length ≠ IPv6len then ([], [])
  else
    let ip := if ip4 = [] then n.IP else ip4
    if n.Mask.length = IPv4len then
      if ip.length ≠ IPv4len then ([], []) else (ip, n.Mask)
    else if n.Mask.length = IPv6len then
      if ip.length = IPv4len then (ip, n.Mask.drop 12) else (ip, n.Mask)
    else ([], [])

/-- The comparison loop of `IPNet.Contains`: every byte agrees under the mask. -/
def maskedEqual : IP → IPMask → IP → Bool
  | n :: nn, m :: mm, x :: xs =>
      if Nat.land n.val m.val ≠ Nat.land x.val m.val then false else maskedEqual nn mm xs
  | _, _, _ => true

/-- Go's `IPNet.Contains`. -/
def IPNet.Contains (n : IPNet) (ip : K6.IP) : Bool :=
  let nm := networkNumberAndMask n
  let x := IP.To4 ip
  let ip := if x ≠ [] then x else ip
  if ip.length ≠ nm.1.length then false
  else maskedEqual nm.1 nm.2 ip

/-- The digit table `hexDigit`. -/
def hexDigit (v : Nat) : Char :=
  "0123456789abcdef".data.getD v '0'

/-- The loop of Go's `uitoa`: the decimal digits of `val`, last digit first
written, in front of `acc`. -/
def uitoaLoop : Nat → Nat → List Char → List Char
  | 0, _, acc => acc
  | fuel + 1, val, acc =>
      if val ≥ 10 then uitoaLoop fuel (val / 10) (Char.ofNat (48 + val % 10) :: acc)
      else Char.ofNat (48 + val) :: acc

/-- Go's `uitoa`; its buffer holds 20 digits. -/
def uitoa (val : Nat) : String :=
  if val = 0 then "0" else String.mk (uitoaLoop 20 val [])

/-- Go's `hexString`. -/
def hexString (b : List Byte) : String :=
  String.mk (b.flatMap (fun tn => [hexDigit (tn.val >>> 4), hexDigit (Nat.land tn.val 0xf)]))

/-- The loop of Go's `appendHex`, for `j` counting down from `n - 1` to `0`. -/
def appendHexLoop (i : Nat) : Nat → List Char → List Char
  | 0, dst => dst
  | j + 1, dst =>
      let v := i >>> (j * 4)
      appendHexLoop i j (if v > 0 then dst ++ [hexDigit (Nat.land v 0xf)] else dst)

/-- Go's `appendHex`. -/
def appendHex (dst : List Char) (i : Nat) : List Char :=
  if i = 0 then dst ++ ['0'] else appendHexLoop i 8 dst

/-- The inner loop of the zero-run search in `IP.String`:
`for j < IPv6len && p[j] == 0 && p[j+1] == 0 { j += 2 }`. -/
def zeroRunEnd (p : IP) : Nat → Nat → Nat
  | 0, j => j
  | fuel + 1, j =>
      if j < IPv6len ∧ p.getD j 0 = 0 ∧ p.getD (j + 1) 0 = 0 then zeroRunEnd p fuel (j + 2) else j

/-- The outer loop of the zero-run search in `IP.String`, from index `i` with
the best run `(e0, e1)` so far. -/
def longestZeroRun (p : IP) : Nat → Nat → Int → Int → Int × Int
  | 0, _, e0, e1 => (e0, e1)
  | fuel + 1, i, e0, e1 =>
      if i < IPv6len then
        let j := zeroRunEnd p 8 i
        if j > i ∧ (j : Int) - i > e1 - e0 then longestZeroRun p fuel (j + 2) i j
        else longestZeroRun p fuel (i + 2) e0 e1
      else (e0, e1)

/-- The 16-bit group of `p` at byte index `i`: `(uint32(p[i])<<8)|uint32(p[i+1])`. -/
def group16 (p : IP) (i : Nat) : Nat :=
  Nat.lor ((p.getD i 0).val <<< 8) (p.getD (i + 1) 0).val

/-- The printing loop of `IP.String` for a 16-byte address. -/
def printGroups (p : IP) (e0 e1 : Int) : Nat → Nat → List Char → List Char
  | 0, _, b => b
  | fuel + 1, i, b =>
      if i < IPv6len then
        if (i : Int) = e0 then
          let b := b ++ [':', ':']
          let i := e1.toNat
          if i ≥ IPv6len then b
          else printGroups p e0 e1 fuel (i + 2) (appendHex b (group16 p i))
        else if i > 0 then
          printGroups p e0 e1 fuel (i + 2) (appendHex (b ++ [':']) (group16 p i))
        else
          printGroups p e0 e1 fuel (i + 2) (appendHex b (group16 p i))
      else b

/-- Go's `IP.String`. -/
def IP.String (ip : IP) : String :=
  if ip.length = 0 then "<nil>"
  else
    let p4 := IP.To4 ip
    if p4.length = IPv4len then
      uitoa (p4.getD 0 0).val ++ "." ++ uitoa (p4.getD 1 0).val ++ "."
        ++ uitoa (p4.getD 2 0).val ++ "." ++ uitoa (p4.getD 3 0).val
    else if ip.length ≠ IPv6len then "?" ++ hexString ip
    else
      let e := longestZeroRun ip 8 0 (-1) (-1)
      let e := if e.2 - e.1 ≤ 2 then ((-1 : Int), (-1 : Int)) else e
      String.mk (printGroups ip e.1 e.2 8 0 [])

/-! ## Errors, contexts and connections -/

/-- A Go `error` value. -/
inductive GoError
  /-- The value built by
  `errors.Errorf("IP (%s) is in a blacklisted range (%s)", ip, net)`. -/
  | blacklisted (ip : IP) (net : IPNet)
  /-- Any other error value, made by a collaborator (resolver, base dialer,
  connection, context). -/
  | other (msg : String)
  deriving DecidableEq, Repr

/-- A `context.Context`, as far as a dial can observe it. -/
structure Context where
  /-- The result of `ctx.Err()`: `nil` until the context is cancelled or timed out. -/
  Err : Option GoError
  /-- The result of `ctx.Deadline()`. -/
  Deadline : Option Int
  deriving DecidableEq, Repr

/-- A live `net.Conn`: what its next `Read` and `Write` return. -/
structure NetConn where
  Read : List Byte → GoInt × Option GoError
  Write : List Byte → GoInt × Option GoError

/-- A `*int64` pointing at one of the two counters of the dialer. -/
inductive CounterRef
  /-- The pointer `&d.BytesRead`. -/
  | BytesRead
  /-- The pointer `&d.BytesWritten`. -/
  | BytesWritten
  deriving DecidableEq, Repr

/-- The struct `Conn`: the wrapped `net.Conn` and the two counter pointers. -/
structure Conn where
  Conn : NetConn
  BytesRead : CounterRef
  BytesWritten : CounterRef

/-- The struct `Dialer`.  The embedded `net.Dialer` is its `DialContext`, which
returns either a connection with a nil error or a nil connection with an
error; `Resolver` is `Resolver.FetchOne`; `Hosts` is the map lookup
`ip, ok := d.Hosts[host]`. -/
structure Dialer where
  Dialer : Context → String → String → Except GoError NetConn
  Resolver : String → IP × Option GoError
  Blacklist : List IPNet
  Hosts : String → Option IP
  BytesRead : Int64
  BytesWritten : Int64

/-- `NewDialer`; the fresh DNS cache `dnscache.New(0)` is passed in. -/
def NewDialer (dialer : Context → String → String → Except GoError NetConn)
    (cache : String → IP × Option GoError) : Dialer :=
  { Dialer := dialer, Resolver := cache, Blacklist := [], Hosts := fun _ => none,
    BytesRead := Int64.zero, BytesWritten := Int64.zero }

/-- Dereference of a counter pointer. -/
def Dialer.load (d : K6.Dialer) : CounterRef → Int64
  | .BytesRead => d.BytesRead
  | .BytesWritten => d.BytesWritten

/-- Assignment through a counter pointer. -/
def Dialer.store (d : K6.Dialer) (p : CounterRef) (v : Int64) : K6.Dialer :=
  match p with
  | .BytesRead => { d with BytesRead := v }
  | .BytesWritten => { d with BytesWritten := v }

/-- Go's `atomic.AddInt64(p, delta)`: the new value and the updated memory. -/
def AddInt64 (p : CounterRef) (delta : Int64) (d : Dialer) : Int64 × Dialer :=
  (Int64.add (d.load p) delta, d.store p (Int64.add (d.load p) delta))

/-- Go's `atomic.SwapInt64(p, new)`: the old value and the updated memory. -/
def SwapInt64 (p : CounterRef) (new : Int64) (d : Dialer) : Int64 × Dialer :=
  (d.load p, d.store p new)

/-! ## `Dialer.DialContext` -/

/-- A call the dialer makes while dialing. -/
inductive Event
  /-- The call `d.Resolver.FetchOne(host)`. -/
  | FetchOne (host : String)
  /-- The call `net.Contains(ip)`. -/
  | Contains (net : IPNet) (ip : IP)
  /-- The call `d.Dialer.DialContext(ctx, proto, addr)`. -/
  | DialContext (ctx : Context) (proto addr : String)
  deriving DecidableEq, Repr

/-- How a call of `DialContext` ends. -/
inductive Outcome
  /-- A run-time panic. -/
  | panic
  /-- A normal return of `(conn, err)`. -/
  | ret (conn : Option Conn) (err : Option GoError)

/-- The result of running `DialContext`: how it ended, the calls it made in
order, and the dialer afterwards. -/
structure Dialed where
  outcome : Outcome
  trace : List Event
  dialer : Dialer

/-- Line 86 of `DialContext`: `&Conn{conn, &d.BytesRead, &d.BytesWritten}`. -/
def wrapConn (conn : NetConn) : Conn :=
  ⟨conn, .BytesRead, .BytesWritten⟩

/-- The loop `for _, net := range d.Blacklist`: the first range containing
`ip`, if any, and the `Contains` calls made. -/
def blacklistLoop (ip : IP) : List IPNet → Option IPNet × List Event
  | [] => (none, [])
  | net :: rest =>
      if net.Contains ip = true then (some net, [Event.Contains net ip])
      else ((blacklistLoop ip rest).1, Event.Contains net ip :: (blacklistLoop ip rest).2)

/-- Lines 73-87 of `DialContext`: everything after `ip` is known.  `tr` is the
trace so far. -/
def dialIP (d : Dialer) (ctx : Context) (proto addr : String) (delimiter : Int) (ip : IP)
    (tr : List Event) : Dialed :=
  match blacklistLoop ip d.Blacklist with
  | (some net, t) => ⟨.ret none (some (.blacklisted ip net)), tr ++ t, d⟩
  | (none, t) =>
    let ipStr := IP.String ip
    let ipStr := if ContainsRune ipStr ':' = true then "[" ++ ipStr ++ "]" else ipStr
    match sliceFrom addr (delimiter + 1) with
    | none => ⟨.panic, tr ++ t, d⟩
    | some port =>
      match d.Dialer ctx proto (ipStr ++ ":" ++ port) with
      | .error err =>
          ⟨.ret none (some err), tr ++ t ++ [Event.DialContext ctx proto (ipStr ++ ":" ++ port)], d⟩
      | .ok conn =>
          ⟨.ret (some (wrapConn conn)) none,
            tr ++ t ++ [Event.DialContext ctx proto (ipStr ++ ":" ++ port)], d⟩

/-- The method `Dialer.DialContext`. -/
def DialContext (d : Dialer) (ctx : Context) (proto addr : String) : Dialed :=
  let delimiter := LastIndex addr ':'
  match sliceTo addr delimiter with
  | none => ⟨.panic, [], d⟩
  | some host =>
    match d.Hosts host with
    | some ip => dialIP d ctx proto addr delimiter ip []
    | none =>
      match d.Resolver host with
      | (_, some err) => ⟨.ret none (some err), [Event.FetchOne host], d⟩
      | (ip, none) => dialIP d ctx proto addr delimiter ip [Event.FetchOne host]

/-! ## `Conn.Read` and `Conn.Write` -/

/-- The method `Conn.Read`: the returned pair and the memory afterwards. -/
def Conn.Read (c : K6.Conn) (b : List Byte) (d : Dialer) : (GoInt × Option GoError) × Dialer :=
  let r := c.Conn.Read b
  if r.1.val > 0 then (r, (AddInt64 c.BytesRead r.1 d).2) else (r, d)

/-- The method `Conn.Write`: the returned pair and the memory afterwards. -/
def Conn.Write (c : K6.Conn) (b : List Byte) (d : Dialer) : (GoInt × Option GoError) × Dialer :=
  let r := c.Conn.Write b
  if r.1.val > 0 then (r, (AddInt64 c.BytesWritten r.1 d).2) else (r, d)

/-! ## `Dialer.GetTrail` and `NetTrail` -/

/-- The parts of the packages `time`, `stats` and `lib/metrics` that `GetTrail`
uses; none of them is defined in the files at hand, so they are parameters. -/
structure Stats where
  /-- The type `time.Time`. -/
  Time : Type
  /-- The type `time.Duration`. -/
  Duration : Type
  /-- The type `*stats.SampleTags`. -/
  SampleTags : Type
  /-- The type `*stats.Metric`. -/
  Metric : Type
  /-- The type `float64`. -/
  Float64 : Type
  /-- The metric `metrics.DataSent`. -/
  DataSent : Metric
  /-- The metric `metrics.DataReceived`. -/
  DataReceived : Metric
  /-- The metric `metrics.IterationDuration`. -/
  IterationDuration : Metric
  /-- The method `Time.Sub`: `Sub t u` is `t.Sub(u)`. -/
  Sub : Time → Time → Duration
  /-- The function `stats.D`. -/
  D : Duration → Float64
  /-- The conversion `float64(x)` of an `int64`. -/
  float64 : Int64 → Float64

/-- The struct `stats.Sample`, with the fields `GetTrail` sets. -/
structure Sample (S : Stats) where
  Time : S.Time
  Metric : S.Metric
  Value : S.Float64
  Tags : S.SampleTags

/-- The struct `NetTrail`. -/
structure NetTrail (S : Stats) where
  BytesRead : Int64
  BytesWritten : Int64
  StartTime : S.Time
  EndTime : S.Time
  Tags : S.SampleTags
  Samples : List (Sample S)

/-- The method `Dialer.GetTrail`: the trail and the dialer afterwards. -/
def GetTrail (S : Stats) (d : Dialer) (startTime endTime : S.Time) (tags : S.SampleTags) :
    NetTrail S × Dialer :=
  let w := SwapInt64 .BytesWritten Int64.zero d
  let r := SwapInt64 .BytesRead Int64.zero w.2
  let bytesWritten := w.1
  let bytesRead := r.1
  ({ BytesRead := bytesRead
     BytesWritten := bytesWritten
     StartTime := startTime
     EndTime := endTime
     Tags := tags
     Samples := [
       { Time := endTime, Metric := S.DataSent, Value := S.float64 bytesWritten, Tags := tags },
       { Time := endTime, Metric := S.DataReceived, Value := S.float64 bytesRead, Tags := tags },
       { Time := endTime, Metric := S.IterationDuration, Value := S.D (S.Sub endTime startTime),
         Tags := tags }] },
   r.2)

/-- The method `NetTrail.GetSamples`. -/
def NetTrail.GetSamples {S : Stats} (ntr : NetTrail S) : List (Sample S) :=
  ntr.Samples

/-- The method `NetTrail.GetTags`. -/
def NetTrail.GetTags {S : Stats} (ntr : NetTrail S) : S.SampleTags :=
  ntr.Tags

/-- The method `NetTrail.GetTime`. -/
def NetTrail.GetTime {S : Stats} (ntr : NetTrail S) : S.Time :=
  ntr.EndTime

/-! ## `influxdb.Config` -/

/-- The struct `influxdb.Config`; a nil `TagsAsFields` is the empty list. -/
structure Config where
  Addr : String
  Username : String
  Password : String
  Insecure : Bool
  PayloadSize : GoInt
  DB : String
  Precision : String
  Retention : String
  Consistency : String
  TagsAsFields : List String
  deriving DecidableEq, Repr

/-- The zero value `Config{}`. -/
def Config.zero : Config :=
  { Addr := "", Username := "", Password := "", Insecure := false, PayloadSize := Int64.zero,
    DB := "", Precision := "", Retention := "", Consistency := "", TagsAsFields := [] }

/-- The function `NewConfig`. -/
def NewConfig : Config :=
  { Config.zero with TagsAsFields := ["vu", "iter", "url"] }

/-- The method `Config.Apply`. -/
def Config.Apply (c cfg : Config) : Config :=
  let c := if cfg.Addr ≠ "" then { c with Addr := cfg.Addr } else c
  let c := if cfg.Username ≠ "" then { c with Username := cfg.Username } else c
  let c := if cfg.Password ≠ "" then { c with Password := cfg.Password } else c
  let c := if cfg.Insecure = true then { c with Insecure := cfg.Insecure } else c
  let c := if cfg.PayloadSize.val > 0 then { c with PayloadSize := cfg.PayloadSize } else c
  let c := if cfg.DB ≠ "" then { c with DB := cfg.DB } else c
  let c := if cfg.Precision ≠ "" then { c with Precision := cfg.Precision } else c
  let c := if cfg.Retention ≠ "" then { c with Retention := cfg.Retention } else c
  let c := if cfg.Consistency ≠ "" then { c with Consistency := cfg.Consistency } else c
  let c := if cfg.TagsAsFields.length > 0 then { c with TagsAsFields := cfg.TagsAsFields } else c
  c

/-! ## Scenarios, measures and specification-side predicates -/

/-- Whether an event is a call of the base dial. -/
def Event.isDial : Event → Bool
  | .DialContext _ _ _ => true
  | _ => false

/-- Whether an event is a call of the resolver. -/
def Event.isFetch : Event → Bool
  | .FetchOne _ => true
  | _ => false

/-- The range `10.0.0.0/8`. -/
def net10 : IPNet := ⟨[10, 0, 0, 0], [255, 0, 0, 0]⟩

/-- A connection whose every `Read` returns `(r, nil)` and every `Write`
returns `(w, nil)`. -/
def steadyConn (r w : Int64) : NetConn :=
  { Read := fun _ => (r, none), Write := fun _ => (w, none) }

/-- The dialer of the override scenario: `Hosts = {"example.com": 10.0.0.5}`,
`Blacklist = [10.0.0.0/8]`; the resolver knows `example.org` only and the base
dial connects. -/
def scenarioDialer : Dialer :=
  { Dialer := fun _ _ _ => .ok (steadyConn ⟨100, by decide⟩ ⟨50, by decide⟩)
    Resolver := fun h =>
      if h = "example.org" then ([93, 184, 216, 34], none) else ([], some (.other "no such host"))
    Blacklist := [net10]
    Hosts := fun h => if h = "example.com" then some [10, 0, 0, 5] else none
    BytesRead := Int64.zero
    BytesWritten := Int64.zero }

/-- A context that is not done. -/
def background : Context := ⟨none, none⟩

/-- A context that was cancelled before the call. -/
def cancelled : Context := ⟨some (.other "context canceled"), none⟩

/-- The address the dialer hands to the base dial for `ip` and `port`
(lines 78-82). -/
def target (ip : IP) (port : String) : String :=
  (if ContainsRune (IP.String ip) ':' = true then "[" ++ IP.String ip ++ "]" else IP.String ip)
    ++ ":" ++ port

/-- An IPv4 address in Go's sense: `To4` does not return nil (4 bytes, or the
16 bytes of an IPv4-mapped address). -/
def IsIPv4 (ip : IP) : Prop := IP.To4 ip ≠ []

/-- An IPv6 address that is not an IPv4 one: 16 bytes for which `To4` returns nil. -/
def IsIPv6 (ip : IP) : Prop := ip.length = IPv6len ∧ IP.To4 ip = []

/-- How the dialer came to `ip` for `host`, with the calls made on the way: the
override map had it, or it had not and the resolver returned it with a nil error. -/
def Resolved (d : Dialer) (host : String) (ip : IP) (tr : List Event) : Prop :=
  (d.Hosts host = some ip ∧ tr = []) ∨
  (d.Hosts host = none ∧ d.Resolver host = (ip, none) ∧ tr = [Event.FetchOne host])

/-- What `DialContext` returns once the base dial has returned `r`
(lines 83-87). -/
def afterDial (r : Except GoError NetConn) : Outcome :=
  match r with
  | .error err => .ret none (some err)
  | .ok conn => .ret (some (wrapConn conn)) none

/-- A dialer whose override map sends `localhost` to `::1`, with no blacklist;
the base dial refuses every connection. -/
def loopbackDialer : Dialer :=
  { Dialer := fun _ _ _ => .error (.other "connection refused")
    Resolver := fun _ => ([], some (.other "no such host"))
    Blacklist := []
    Hosts := fun h =>
      if h = "localhost" then some [0, 0, 0, 0, 0, 0, 0, 0, 0, 0, 0, 0, 0, 0, 0, 1] else none
    BytesRead := Int64.zero
    BytesWritten := Int64.zero }

/-- One step of the life of a dialer between two drains: a dial, or a `Read` or
`Write` on the connection number `conn` among those the dialer made, whose
wrapped `net.Conn` is `under` at that moment. -/
inductive Step
  | Dial (ctx : Context) (proto addr : String)
  | Read (conn : Nat) (under : NetConn) (b : List Byte)
  | Write (conn : Nat) (under : NetConn) (b : List Byte)

/-- The dialer after a step. -/
def Step.run (s : Step) (d : Dialer) : Dialer :=
  match s with
  | .Dial ctx proto addr => (DialContext d ctx proto addr).dialer
  | .Read _ under b => ((wrapConn under).Read b d).2
  | .Write _ under b => ((wrapConn under).Write b d).2

/-- The dialer after a sequence of steps. -/
def runSteps : List Step → Dialer → Dialer
  | [], d => d
  | s :: rest, d => runSteps rest (s.run d)

/-- The number of bytes a step reads: the positive `n` its `Read` returns. -/
def Step.read : Step → Int
  | .Read _ under b => if 0 < (under.Read b).1.val then (under.Read b).1.val else 0
  | _ => 0

/-- The number of bytes a step writes: the positive `n` its `Write` returns. -/
def Step.written : Step → Int
  | .Write _ under b => if 0 < (under.Write b).1.val then (under.Write b).1.val else 0
  | _ => 0

/-- The connection a step is on, if it is a `Read` or a `Write`. -/
def Step.conn : Step → Option Nat
  | .Read conn _ _ => some conn
  | .Write conn _ _ => some conn
  | .Dial _ _ _ => none

/-- The bytes connection `i` has read over a sequence of steps. -/
def bytesReadBy (i : Nat) (steps : List Step) : Int :=
  ((steps.filter (fun s => s.conn = some i)).map Step.read).sum

/-- The bytes connection `i` has written over a sequence of steps. -/
def bytesWrittenBy (i : Nat) (steps : List Step) : Int :=
  ((steps.filter (fun s => s.conn = some i)).map Step.written).sum

/-- A dialer as `NewDialer` returns it: zeroed counters, no overrides, no
blacklist. -/
def freshDialer : Dialer :=
  NewDialer scenarioDialer.Dialer scenarioDialer.Resolver

/-- A plain instance of the `time`, `stats` and `metrics` parameters: times and
durations in nanoseconds, sample values as integers. -/
def plainStats : Stats :=
  { Time := Int, Duration := Int, SampleTags := List (String × String), Metric := String,
    Float64 := Int, DataSent := "data_sent", DataReceived := "data_received",
    IterationDuration := "iteration_duration", Sub := fun t u => t - u, D := fun x => x,
    float64 := fun x => x.val }

/-- A connection whose `Read` returns `n = 2^62`. -/
def hugeConn : NetConn :=
  steadyConn ⟨4611686018427387904, by decide⟩ Int64.zero

/-- A connection whose `Read` returns `n = 2^63 - 1`, the largest `int`. -/
def maxConn : NetConn :=
  steadyConn ⟨9223372036854775807, by decide⟩ Int64.zero

/-- A connection whose `Read` and `Write` return `n = 1`. -/
def unitConn : NetConn :=
  steadyConn ⟨1, by decide⟩ ⟨1, by decide⟩

/-- A dialer whose base dial honours the context: it returns the context's
error when the context is done and connects otherwise.  The resolver knows
`example.org` only; `10.0.0.0/8` is blacklisted. -/
def contextDialer : Dialer :=
  { Dialer := fun ctx _ _ =>
      match ctx.Err with
      | some err => .error err
      | none => .ok unitConn
    Resolver := fun h =>
      if h = "example.org" then ([93, 184, 216, 34], none) else ([], some (.other "no such host"))
    Blacklist := [net10]
    Hosts := fun _ => none
    BytesRead := Int64.zero
    BytesWritten := Int64.zero }

/-! ## Helper lemmas -/

theorem blacklistLoop_trace (ip : IP) (bl : List IPNet) :
    ∀ e ∈ (blacklistLoop ip bl).2, ∃ net, e = Event.Contains net ip := by
  induction bl with
  | nil => intro e he; simp [blacklistLoop] at he
  | cons net rest ih =>
    intro e he
    unfold blacklistLoop at he
    split_ifs at he with h
    · simp at he; exact ⟨net, he⟩
    · simp at he
      rcases he with he | he
      · exact ⟨net, he⟩
      · exact ih e he

theorem blacklistLoop_some (ip : IP) (bl : List IPNet)
    (h : ∃ net ∈ bl, IPNet.Contains net ip = true) :
    ∃ net ∈ bl, IPNet.Contains net ip = true ∧ (blacklistLoop ip bl).1 = some net := by
  induction bl with
  | nil => simp at h
  | cons n rest ih =>
    unfold blacklistLoop
    by_cases hn : IPNet.Contains n ip = true
    · exact ⟨n, by simp, hn, by simp [hn]⟩
    · have h2 : ∃ net ∈ rest, IPNet.Contains net ip = true := by
        obtain ⟨m, hm, hc⟩ := h
        rcases List.mem_cons.mp hm with e | e
        · subst e; exact absurd hc hn
        · exact ⟨m, e, hc⟩
      obtain ⟨m, hm, hc, he⟩ := ih h2
      exact ⟨m, List.mem_cons_of_mem _ hm, hc, by simp [hn, he]⟩

theorem blacklistLoop_none (ip : IP) (bl : List IPNet)
    (h : ∀ net ∈ bl, IPNet.Contains net ip = false) :
    (blacklistLoop ip bl).1 = none := by
  induction bl with
  | nil => rfl
  | cons n rest ih =>
    unfold blacklistLoop
    have hn : IPNet.Contains n ip = false := h n (by simp)
    simp [hn]
    exact ih (fun m hm => h m (List.mem_cons_of_mem _ hm))

theorem dialIP_dialer (d : Dialer) (ctx : Context) (proto addr : String) (k : Int) (ip : IP)
    (tr : List Event) : (dialIP d ctx proto addr k ip tr).dialer = d := by
  unfold dialIP
  split
  · rfl
  · dsimp only
    split
    · rfl
    · split <;> rfl

theorem DialContext_dialer (d : Dialer) (ctx : Context) (proto addr : String) :
    (DialContext d ctx proto addr).dialer = d := by
  unfold DialContext
  dsimp only
  split
  · rfl
  · split
    · exact dialIP_dialer ..
    · split
      · rfl
      · exact dialIP_dialer ..

theorem DialContext_of_host (d : Dialer) (ctx : Context) (proto addr host : String) (ip : IP)
    (hsplit : sliceTo addr (LastIndex addr ':') = some host) (hkey : d.Hosts host = some ip) :
    DialContext d ctx proto addr = dialIP d ctx proto addr (LastIndex addr ':') ip [] := by
  unfold DialContext
  simp only [hsplit, hkey]

theorem DialContext_of_resolved (d : Dialer) (ctx : Context) (proto addr host : String) (ip : IP)
    (hsplit : sliceTo addr (LastIndex addr ':') = some host) (hkey : d.Hosts host = none)
    (hres : d.Resolver host = (ip, none)) :
    DialContext d ctx proto addr
      = dialIP d ctx proto addr (LastIndex addr ':') ip [Event.FetchOne host] := by
  unfold DialContext
  simp only [hsplit, hkey, hres]

theorem DialContext_of_unresolved (d : Dialer) (ctx : Context) (proto addr host : String)
    (ip : IP) (err : GoError)
    (hsplit : sliceTo addr (LastIndex addr ':') = some host) (hkey : d.Hosts host = none)
    (hres : d.Resolver host = (ip, some err)) :
    DialContext d ctx proto addr = ⟨.ret none (some err), [Event.FetchOne host], d⟩ := by
  unfold DialContext
  simp only [hsplit, hkey, hres]

theorem DialContext_of_nosplit (d : Dialer) (ctx : Context) (proto addr : String)
    (hsplit : sliceTo addr (LastIndex addr ':') = none) :
    DialContext d ctx proto addr = ⟨.panic, [], d⟩ := by
  unfold DialContext
  simp only [hsplit]

theorem dialIP_blocked (d : Dialer) (ctx : Context) (proto addr : String) (k : Int) (ip : IP)
    (tr : List Event) (net : IPNet) (h : (blacklistLoop ip d.Blacklist).1 = some net) :
    dialIP d ctx proto addr k ip tr
      = ⟨.ret none (some (.blacklisted ip net)), tr ++ (blacklistLoop ip d.Blacklist).2, d⟩ := by
  unfold dialIP
  rcases hb : blacklistLoop ip d.Blacklist with ⟨o, t⟩
  rw [hb] at h
  simp only at h
  subst h
  rfl

theorem dialIP_pass (d : Dialer) (ctx : Context) (proto addr port : String) (k : Int) (ip : IP)
    (tr : List Event) (h : (blacklistLoop ip d.Blacklist).1 = none)
    (hp : sliceFrom addr (k + 1) = some port) :
    dialIP d ctx proto addr k ip tr
      = match d.Dialer ctx proto (target ip port) with
        | .error err =>
            ⟨.ret none (some err),
              tr ++ (blacklistLoop ip d.Blacklist).2 ++ [Event.DialContext ctx proto (target ip port)],
              d⟩
        | .ok conn =>
            ⟨.ret (some (wrapConn conn)) none,
              tr ++ (blacklistLoop ip d.Blacklist).2 ++ [Event.DialContext ctx proto (target ip port)],
              d⟩ := by
  unfold dialIP target
  rcases hb : blacklistLoop ip d.Blacklist with ⟨o, t⟩
  rw [hb] at h
  simp only at h
  subst h
  simp only [hp]

theorem lastIndexFrom_spec (s : List Char) (c : Char) (n : Nat) :
    (lastIndexFrom s c n = -1 ∧ ∀ j, j < n → s.getD j default ≠ c) ∨
    ∃ k : Nat, k < n ∧ lastIndexFrom s c n = (k : Int) ∧ s.getD k default = c ∧
      ∀ j, k < j → j < n → s.getD j default ≠ c := by
  induction n with
  | zero => left; exact ⟨rfl, fun j hj => absurd hj (Nat.not_lt_zero j)⟩
  | succ i ih =>
    unfold lastIndexFrom
    by_cases h : s.getD i default = c
    · right
      refine ⟨i, Nat.lt_succ_self i, by rw [if_pos h], h, ?_⟩
      intro j h1 h2
      omega
    · simp only [h, if_false]
      rcases ih with ⟨h1, h2⟩ | ⟨k, hk, h1, h2, h3⟩
      · left
        refine ⟨h1, ?_⟩
        intro j hj
        rcases Nat.lt_succ_iff_lt_or_eq.mp hj with hlt | heq
        · exact h2 j hlt
        · subst heq; exact h
      · right
        refine ⟨k, Nat.lt_succ_of_lt hk, h1, h2, ?_⟩
        intro j hj1 hj2
        rcases Nat.lt_succ_iff_lt_or_eq.mp hj2 with hlt | heq
        · exact h3 j hj1 hlt
        · subst heq; exact h

/-- When `addr[:delimiter]` does not panic, the last colon is at an index `k`
inside `addr`, and both slices of the dialer are the pieces around it. -/
theorem split_at_last_colon (addr host : String)
    (hsplit : sliceTo addr (LastIndex addr ':') = some host) :
    ∃ k : Nat, k < addr.length ∧ LastIndex addr ':' = (k : Int) ∧
      host = String.mk (addr.data.take k) ∧
      sliceFrom addr (LastIndex addr ':' + 1) = some (String.mk (addr.data.drop (k + 1))) ∧
      addr.data = addr.data.take k ++ ':' :: addr.data.drop (k + 1) ∧
      ':' ∉ addr.data.drop (k + 1) := by
  unfold sliceTo at hsplit
  split_ifs at hsplit with hr
  unfold LastIndex at hr hsplit ⊢
  have hlen : addr.length = addr.data.length := rfl
  rcases lastIndexFrom_spec addr.data ':' addr.length with ⟨h1, _⟩ | ⟨k, hk, h1, h2, h3⟩
  · rw [h1] at hr; omega
  · refine ⟨k, hk, h1, ?_, ?_, ?_, ?_⟩
    · rw [h1] at hsplit
      simp at hsplit
      exact hsplit.symm
    · unfold sliceFrom
      rw [h1]
      have : (0 : Int) ≤ (k : Int) + 1 ∧ (k : Int) + 1 ≤ (addr.length : Int) := by omega
      rw [if_pos this]
      congr
    · have hk2 : k < addr.data.length := hlen ▸ hk
      rw [List.getD_eq_getElem _ _ hk2] at h2
      rw [← h2, ← List.drop_eq_getElem_cons hk2, List.take_append_drop]
    · intro hmem
      obtain ⟨j, hj, hje⟩ := List.getElem_of_mem hmem
      rw [List.getElem_drop] at hje
      rw [List.length_drop] at hj
      have := h3 (k + 1 + j) (by omega) (by omega)
      rw [List.getD_eq_getElem _ _ (by omega)] at this
      exact this hje
theorem To4_length (ip : IP) : IP.To4 ip = [] ∨ (IP.To4 ip).length = 4 := by
  unfold IP.To4
  split_ifs with h1 h2
  · right; exact h1
  · right
    have : ip.length = 16 := h2.1
    simp [List.length_take, List.length_drop, this]
  · left; rfl

theorem uitoaLoop_digits (fuel val : Nat) (acc : List Char)
    (hacc : ∀ ch ∈ acc, ch ≠ ':') : ∀ ch ∈ uitoaLoop fuel val acc, ch ≠ ':' := by
  induction fuel generalizing val acc with
  | zero => exact hacc
  | succ f ih =>
    unfold uitoaLoop
    split_ifs with h
    · apply ih
      intro ch hch
      rcases List.mem_cons.mp hch with e | e
      · subst e
        have : val % 10 < 10 := Nat.mod_lt _ (by decide)
        interval_cases (val % 10) <;> decide
      · exact hacc ch e
    · intro ch hch
      rcases List.mem_cons.mp hch with e | e
      · subst e
        have : val < 10 := by omega
        interval_cases val <;> decide
      · exact hacc ch e

theorem uitoa_no_colon (val : Nat) : ':' ∉ (uitoa val).data := by
  unfold uitoa
  split_ifs with h
  · decide
  · intro hm
    exact uitoaLoop_digits 20 val [] (by simp) ':' hm rfl

theorem String_ipv4_no_colon (ip : IP) (h : IsIPv4 ip) : ContainsRune (IP.String ip) ':' = false := by
  have h4 : (IP.To4 ip).length = 4 := by
    rcases To4_length ip with e | e
    · exact absurd e h
    · exact e
  have hne : ip.length ≠ 0 := by
    intro h0
    have : ip = [] := List.length_eq_zero.mp h0
    subst this
    exact h (by decide)
  unfold IP.String ContainsRune
  rw [if_neg hne]
  simp only [h4, IPv4len, if_true]
  have := uitoa_no_colon
  simp [String.data_append, this]

theorem appendHexLoop_mem (i : Nat) (ch : Char) :
    ∀ (j : Nat) (dst : List Char), ch ∈ dst → ch ∈ appendHexLoop i j dst := by
  intro j
  induction j with
  | zero => intro dst h; exact h
  | succ j ih =>
    intro dst h
    unfold appendHexLoop
    apply ih
    dsimp only
    split_ifs
    · exact List.mem_append_left _ h
    · exact h

theorem appendHex_mem (dst : List Char) (i : Nat) (ch : Char) (h : ch ∈ dst) :
    ch ∈ appendHex dst i := by
  unfold appendHex
  split_ifs
  · exact List.mem_append_left _ h
  · exact appendHexLoop_mem i ch 8 dst h

theorem printGroups_mem (p : IP) (e0 e1 : Int) (ch : Char) :
    ∀ (fuel i : Nat) (b : List Char), ch ∈ b → ch ∈ printGroups p e0 e1 fuel i b := by
  intro fuel
  induction fuel with
  | zero => intro i b h; exact h
  | succ f ih =>
    intro i b h
    unfold printGroups
    dsimp only
    split_ifs
    · exact List.mem_append_left _ h
    · exact ih _ _ (appendHex_mem _ _ _ (List.mem_append_left _ h))
    · exact ih _ _ (appendHex_mem _ _ _ (List.mem_append_left _ h))
    · exact ih _ _ (appendHex_mem _ _ _ h)
    · exact h

theorem printGroups_colon (p : IP) (e0 e1 : Int) (fuel : Nat) :
    ':' ∈ printGroups p e0 e1 (fuel + 2) 0 [] := by
  unfold printGroups
  dsimp only
  have h16 : (0 : Nat) < IPv6len := by decide
  rw [if_pos h16]
  split_ifs with h1 h2 h3
  · simp
  · exact printGroups_mem _ _ _ _ _ _ _ (appendHex_mem _ _ _ (by simp))
  · exact absurd h3 (by decide)
  · -- first group printed without a separator; the second iteration writes one
    unfold printGroups
    dsimp only
    have h2lt : (0 + 2 : Nat) < IPv6len := by decide
    rw [if_pos h2lt]
    split_ifs with h4 h5 h6
    · exact List.mem_append_right _ (by simp)
    · exact printGroups_mem _ _ _ _ _ _ _ (appendHex_mem _ _ _ (List.mem_append_right _ (by simp)))
    · exact printGroups_mem _ _ _ _ _ _ _ (appendHex_mem _ _ _ (List.mem_append_right _ (by simp)))
    · exact absurd (show (0 + 2 : Nat) > 0 by decide) h6

theorem String_ipv6_colon (ip : IP) (h : IsIPv6 ip) : ContainsRune (IP.String ip) ':' = true := by
  obtain ⟨h16, h4⟩ := h
  have hne : ip.length ≠ 0 := by rw [h16]; decide
  unfold IP.String ContainsRune
  rw [if_neg hne]
  simp only [h4, h16, List.length_nil, IPv4len]
  simp only [show ¬ ((0 : Nat) = 4) by decide, if_false, ne_eq, not_true_eq_false]
  simp only [List.elem_eq_mem, decide_eq_true_eq]
  exact printGroups_colon _ _ _ 6

theorem dialIP_passed (d : Dialer) (ctx : Context) (proto addr port : String) (k : Int)
    (ip : IP) (tr : List Event) (h : (blacklistLoop ip d.Blacklist).1 = none)
    (hp : sliceFrom addr (k + 1) = some port) :
    dialIP d ctx proto addr k ip tr
      = ⟨afterDial (d.Dialer ctx proto (target ip port)),
          tr ++ (blacklistLoop ip d.Blacklist).2 ++ [Event.DialContext ctx proto (target ip port)],
          d⟩ := by
  rw [dialIP_pass d ctx proto addr port k ip tr h hp]
  cases d.Dialer ctx proto (target ip port) <;> rfl

/-- Every run of `DialContext` that gets past the split is one of three, and
which one does not depend on the context: the resolver fails; the IP is
blacklisted; the base dial is called. -/
theorem DialContext_cases (d : Dialer) (proto addr host : String)
    (hs : sliceTo addr (LastIndex addr ':') = some host) :
    (∃ ip err, d.Hosts host = none ∧ d.Resolver host = (ip, some err) ∧
      ∀ ctx, DialContext d ctx proto addr = ⟨.ret none (some err), [Event.FetchOne host], d⟩) ∨
    (∃ ip tr net, Resolved d host ip tr ∧ (blacklistLoop ip d.Blacklist).1 = some net ∧
      ∀ ctx, DialContext d ctx proto addr
        = ⟨.ret none (some (.blacklisted ip net)), tr ++ (blacklistLoop ip d.Blacklist).2, d⟩) ∨
    (∃ ip tr port, Resolved d host ip tr ∧ (blacklistLoop ip d.Blacklist).1 = none ∧
      sliceFrom addr (LastIndex addr ':' + 1) = some port ∧
      ∀ ctx, DialContext d ctx proto addr
        = ⟨afterDial (d.Dialer ctx proto (target ip port)),
            tr ++ (blacklistLoop ip d.Blacklist).2
              ++ [Event.DialContext ctx proto (target ip port)], d⟩) := by
  obtain ⟨k, -, -, -, hport, -, -⟩ := split_at_last_colon addr host hs
  have key : ∀ ip tr, Resolved d host ip tr →
      (∀ ctx, DialContext d ctx proto addr = dialIP d ctx proto addr (LastIndex addr ':') ip tr) →
      (∃ ip tr net, Resolved d host ip tr ∧ (blacklistLoop ip d.Blacklist).1 = some net ∧
        ∀ ctx, DialContext d ctx proto addr
          = ⟨.ret none (some (.blacklisted ip net)), tr ++ (blacklistLoop ip d.Blacklist).2, d⟩) ∨
      (∃ ip tr port, Resolved d host ip tr ∧ (blacklistLoop ip d.Blacklist).1 = none ∧
        sliceFrom addr (LastIndex addr ':' + 1) = some port ∧
        ∀ ctx, DialContext d ctx proto addr
          = ⟨afterDial (d.Dialer ctx proto (target ip port)),
              tr ++ (blacklistLoop ip d.Blacklist).2
                ++ [Event.DialContext ctx proto (target ip port)], d⟩) := by
    intro ip tr hr he
    rcases hb : (blacklistLoop ip d.Blacklist).1 with _ | net
    · right
      refine ⟨ip, tr, _, hr, hb, hport, ?_⟩
      intro ctx
      rw [he, dialIP_passed d ctx proto addr _ _ ip tr hb hport]
    · left
      refine ⟨ip, tr, net, hr, hb, ?_⟩
      intro ctx
      rw [he, dialIP_blocked d ctx proto addr _ ip tr net hb]
  rcases hk : d.Hosts host with _ | ip
  · rcases hr : d.Resolver host with ⟨ip, _ | err⟩
    · exact Or.inr (key ip [Event.FetchOne host] (Or.inr ⟨hk, hr, rfl⟩)
        (fun ctx => DialContext_of_resolved d ctx proto addr host ip hs hk hr))
    · exact Or.inl ⟨ip, err, rfl, rfl,
        fun ctx => DialContext_of_unresolved d ctx proto addr host ip err hs hk hr⟩
  · exact Or.inr (key ip [] (Or.inl ⟨hk, rfl⟩)
      (fun ctx => DialContext_of_host d ctx proto addr host ip hs hk))

theorem blacklistLoop_isDial (ip : IP) (bl : List IPNet) :
    ∀ e ∈ (blacklistLoop ip bl).2, e.isDial = false := by
  intro e he
  obtain ⟨n, rfl⟩ := blacklistLoop_trace ip bl e he
  rfl

theorem blacklistLoop_isFetch (ip : IP) (bl : List IPNet) :
    ∀ e ∈ (blacklistLoop ip bl).2, e.isFetch = false := by
  intro e he
  obtain ⟨n, rfl⟩ := blacklistLoop_trace ip bl e he
  rfl

theorem Resolved_isDial (d : Dialer) (host : String) (ip : IP) (tr : List Event)
    (h : Resolved d host ip tr) : ∀ e ∈ tr, e.isDial = false := by
  intro e he
  rcases h with ⟨-, rfl⟩ | ⟨-, -, rfl⟩
  · simp at he
  · simp at he; subst he; rfl

theorem String_append3 (addr host : String) (k : Nat)
    (hh : host = String.mk (addr.data.take k))
    (hd : addr.data = addr.data.take k ++ ':' :: addr.data.drop (k + 1)) :
    addr = host ++ ":" ++ String.mk (addr.data.drop (k + 1)) := by
  apply String.ext
  rw [String.data_append, String.data_append, hh]
  simp only [List.append_assoc]
  exact hd

theorem Config_Apply_fields (c cfg : Config) :
    (c.Apply cfg).Addr = (if cfg.Addr ≠ "" then cfg.Addr else c.Addr) ∧
    (c.Apply cfg).Username = (if cfg.Username ≠ "" then cfg.Username else c.Username) ∧
    (c.Apply cfg).Password = (if cfg.Password ≠ "" then cfg.Password else c.Password) ∧
    (c.Apply cfg).Insecure = (if cfg.Insecure = true then cfg.Insecure else c.Insecure) ∧
    (c.Apply cfg).PayloadSize
      = (if cfg.PayloadSize.val > 0 then cfg.PayloadSize else c.PayloadSize) ∧
    (c.Apply cfg).DB = (if cfg.DB ≠ "" then cfg.DB else c.DB) ∧
    (c.Apply cfg).Precision = (if cfg.Precision ≠ "" then cfg.Precision else c.Precision) ∧
    (c.Apply cfg).Retention = (if cfg.Retention ≠ "" then cfg.Retention else c.Retention) ∧
    (c.Apply cfg).Consistency
      = (if cfg.Consistency ≠ "" then cfg.Consistency else c.Consistency) ∧
    (c.Apply cfg).TagsAsFields
      = (if cfg.TagsAsFields.length > 0 then cfg.TagsAsFields else c.TagsAsFields) := by
  unfold Config.Apply
  simp only [apply_ite Config.Addr, apply_ite Config.Username, apply_ite Config.Password,
    apply_ite Config.Insecure, apply_ite Config.PayloadSize, apply_ite Config.DB,
    apply_ite Config.Precision, apply_ite Config.Retention, apply_ite Config.Consistency,
    apply_ite Config.TagsAsFields, ite_self, and_self]

theorem Config_ext (a b : Config) (h1 : a.Addr = b.Addr) (h2 : a.Username = b.Username)
    (h3 : a.Password = b.Password) (h4 : a.Insecure = b.Insecure)
    (h5 : a.PayloadSize = b.PayloadSize) (h6 : a.DB = b.DB) (h7 : a.Precision = b.Precision)
    (h8 : a.Retention = b.Retention) (h9 : a.Consistency = b.Consistency)
    (h10 : a.TagsAsFields = b.TagsAsFields) : a = b := by
  cases a; cases b; simp at *
  exact ⟨h1, h2, h3, h4, h5, h6, h7, h8, h9, h10⟩

theorem Dialer_load_store (d : Dialer) (p q : CounterRef) (v : Int64) :
    (d.store p v).load q = if q = p then v else d.load q := by
  cases p <;> cases q <;> rfl

theorem Int64_add_exact (a b : Int64) (h : a.val + b.val ≤ 9223372036854775807)
    (hb : 0 ≤ b.val) : (Int64.add a b).val = a.val + b.val := by
  have ha := a.property.1
  show wrap64 (a.val + b.val) = a.val + b.val
  unfold wrap64
  omega

theorem wrap64_add_wrap (a b : Int) : wrap64 (wrap64 a + b) = wrap64 (a + b) := by
  unfold wrap64
  omega

theorem wrap64_id (a : Int) (h1 : -9223372036854775808 ≤ a) (h2 : a ≤ 9223372036854775807) :
    wrap64 a = a := by
  unfold wrap64
  omega

theorem Step_run_read (s : Step) (d : Dialer) :
    (s.run d).BytesRead.val = wrap64 (d.BytesRead.val + s.read) ∧
    (s.run d).BytesWritten.val = wrap64 (d.BytesWritten.val + s.written) := by
  have hr := wrap64_id _ d.BytesRead.property.1 d.BytesRead.property.2
  have hw := wrap64_id _ d.BytesWritten.property.1 d.BytesWritten.property.2
  cases s with
  | Dial ctx proto addr =>
    simp only [Step.run, Step.read, Step.written, DialContext_dialer, add_zero]
    exact ⟨hr.symm, hw.symm⟩
  | Read conn under b =>
    simp only [Step.run, Step.read, Step.written, add_zero, Conn.Read, wrapConn]
    split_ifs with h
    · exact ⟨rfl, hw.symm⟩
    · exact ⟨by rw [add_zero]; exact hr.symm, hw.symm⟩
  | Write conn under b =>
    simp only [Step.run, Step.read, Step.written, add_zero, Conn.Write, wrapConn]
    split_ifs with h
    · exact ⟨hr.symm, rfl⟩
    · exact ⟨hr.symm, by rw [add_zero]; exact hw.symm⟩

theorem runSteps_counters (steps : List Step) (d : Dialer) :
    (runSteps steps d).BytesRead.val = wrap64 (d.BytesRead.val + (steps.map Step.read).sum) ∧
    (runSteps steps d).BytesWritten.val
      = wrap64 (d.BytesWritten.val + (steps.map Step.written).sum) := by
  induction steps generalizing d with
  | nil =>
    simp only [runSteps, List.map_nil, List.sum_nil, add_zero]
    exact ⟨(wrap64_id _ d.BytesRead.property.1 d.BytesRead.property.2).symm,
      (wrap64_id _ d.BytesWritten.property.1 d.BytesWritten.property.2).symm⟩
  | cons s rest ih =>
    obtain ⟨h1, h2⟩ := ih (s.run d)
    obtain ⟨g1, g2⟩ := Step_run_read s d
    simp only [runSteps, List.map_cons, List.sum_cons]
    rw [h1, h2, g1, g2, wrap64_add_wrap, wrap64_add_wrap, add_assoc, add_assoc]
    exact ⟨rfl, rfl⟩

theorem sum_by_conn (f : Step → Int) (hf : ∀ s, s.conn = none → f s = 0) (N : Nat)
    (steps : List Step) (h : ∀ s ∈ steps, ∀ i, s.conn = some i → i < N) :
    (steps.map f).sum
      = ∑ i in Finset.range N, ((steps.filter (fun s => s.conn = some i)).map f).sum := by
  induction steps with
  | nil => simp
  | cons s rest ih =>
    have ih2 := ih (fun t ht => h t (List.mem_cons_of_mem _ ht))
    have hs := h s (List.mem_cons_self _ _)
    simp only [List.map_cons, List.sum_cons, List.filter_cons]
    rw [ih2]
    have : ∀ i, ((if (decide (s.conn = some i)) = true
          then s :: rest.filter (fun s => s.conn = some i)
          else rest.filter (fun s => s.conn = some i)).map f).sum
        = (if s.conn = some i then f s else 0)
          + ((rest.filter (fun s => s.conn = some i)).map f).sum := by
      intro i
      by_cases hc : s.conn = some i
      · simp [hc]
      · simp [hc]
    simp only [this, Finset.sum_add_distrib]
    congr 1
    rcases hc : s.conn with _ | j
    · simp [hf s hc]
    · have hj := hs j hc
      simp [Finset.sum_ite_eq, hj]

theorem Step_read_nonneg (s : Step) : 0 ≤ s.read ∧ 0 ≤ s.written := by
  cases s with
  | Dial ctx proto addr => exact ⟨le_refl _, le_refl _⟩
  | Read conn under b =>
    simp only [Step.read, Step.written]
    exact ⟨by split_ifs with h <;> omega, le_refl _⟩
  | Write conn under b =>
    simp only [Step.read, Step.written]
    exact ⟨le_refl _, by split_ifs with h <;> omega⟩

theorem GetTrail_swap (S : Stats) (e : Dialer) (t0 t1 : S.Time) (tags : S.SampleTags) :
    (GetTrail S e t0 t1 tags).1.BytesRead = e.BytesRead ∧
    (GetTrail S e t0 t1 tags).1.BytesWritten = e.BytesWritten ∧
    (GetTrail S e t0 t1 tags).2.BytesRead = Int64.zero ∧
    (GetTrail S e t0 t1 tags).2.BytesWritten = Int64.zero :=
  ⟨rfl, rfl, rfl, rfl⟩

/-- A dial whose IP no blacklist range contains reaches the base dial: the one
dial event carries the context, the protocol and the formatted address, and the
outcome is what the base dial returned. -/
theorem DialContext_reaches_dial (d : Dialer) (ctx : Context) (proto addr host : String)
    (ip : IP) (hsplit : sliceTo addr (LastIndex addr ':') = some host)
    (hres : d.Hosts host = some ip ∨ (d.Hosts host = none ∧ d.Resolver host = (ip, none)))
    (hbl : ∀ net ∈ d.Blacklist, IPNet.Contains net ip = false) :
    ∃ port, sliceFrom addr (LastIndex addr ':' + 1) = some port ∧
      (DialContext d ctx proto addr).trace.filter Event.isDial
        = [Event.DialContext ctx proto (target ip port)] ∧
      (DialContext d ctx proto addr).outcome
        = afterDial (d.Dialer ctx proto (target ip port)) := by
  obtain ⟨k, -, -, -, hport, -, -⟩ := split_at_last_colon addr host hsplit
  have hb := blacklistLoop_none ip d.Blacklist hbl
  have hf : List.filter Event.isDial (blacklistLoop ip d.Blacklist).2 = [] :=
    List.filter_eq_nil_iff.mpr
      (fun e he => by simp [blacklistLoop_isDial ip d.Blacklist e he])
  refine ⟨_, hport, ?_, ?_⟩
  · rcases hres with hk | ⟨hk, hr⟩
    · rw [DialContext_of_host d ctx proto addr host ip hsplit hk,
        dialIP_passed d ctx proto addr _ _ ip [] hb hport]
      simp [List.filter_append, hf, Event.isDial]
    · rw [DialContext_of_resolved d ctx proto addr host ip hsplit hk hr,
        dialIP_passed d ctx proto addr _ _ ip _ hb hport]
      simp [List.filter_append, List.filter_cons, hf, Event.isDial]
  · rcases hres with hk | ⟨hk, hr⟩
    · rw [DialContext_of_host d ctx proto addr host ip hsplit hk,
        dialIP_passed d ctx proto addr _ _ ip [] hb hport]
    · rw [DialContext_of_resolved d ctx proto addr host ip hsplit hk hr,
        dialIP_passed d ctx proto addr _ _ ip _ hb hport]

/-- A dial whose IP some blacklist range contains ends in the blacklist error
without a base-dial call. -/
theorem DialContext_stops_at_blacklist (d : Dialer) (ctx : Context)
    (proto addr host : String) (ip : IP)
    (hsplit : sliceTo addr (LastIndex addr ':') = some host)
    (hres : d.Hosts host = some ip ∨ (d.Hosts host = none ∧ d.Resolver host = (ip, none)))
    (hbl : ∃ net ∈ d.Blacklist, IPNet.Contains net ip = true) :
    ∃ net ∈ d.Blacklist, IPNet.Contains net ip = true ∧
      (DialContext d ctx proto addr).outcome = .ret none (some (.blacklisted ip net)) ∧
      ∀ e ∈ (DialContext d ctx proto addr).trace, e.isDial = false := by
  obtain ⟨net, hmem, hc, hloop⟩ := blacklistLoop_some ip d.Blacklist hbl
  refine ⟨net, hmem, hc, ?_, ?_⟩
  · rcases hres with hk | ⟨hk, hr⟩
    · rw [DialContext_of_host d ctx proto addr host ip hsplit hk,
        dialIP_blocked d ctx proto addr _ ip _ net hloop]
    · rw [DialContext_of_resolved d ctx proto addr host ip hsplit hk hr,
        dialIP_blocked d ctx proto addr _ ip _ net hloop]
  · rcases hres with hk | ⟨hk, hr⟩
    · rw [DialContext_of_host d ctx proto addr host ip hsplit hk,
        dialIP_blocked d ctx proto addr _ ip _ net hloop]
      intro e he
      simp only [List.nil_append] at he
      exact blacklistLoop_isDial ip d.Blacklist e he
    · rw [DialContext_of_resolved d ctx proto addr host ip hsplit hk hr,
        dialIP_blocked d ctx proto addr _ ip _ net hloop]
      intro e he
      simp only [List.cons_append, List.nil_append, List.mem_cons] at he
      rcases he with rfl | he
      · rfl
      · exact blacklistLoop_isDial ip d.Blacklist e he

/-! ## The dial: policy, override, address format, cancellation, split -/

/-- C1. When the host of a dial request resolves (through `Hosts` or through the
resolver) to an IP that some range of `Blacklist` contains, `DialContext` returns
a nil connection and the blacklist error for that IP and a containing range of the
list, the base dial is not called, and both counters are what they were. -/
theorem DialContext_blacklisted (d : Dialer) (ctx : Context) (proto addr host : String)
    (ip : IP)
    (hsplit : sliceTo addr (LastIndex addr ':') = some host)
    (hres : d.Hosts host = some ip ∨ (d.Hosts host = none ∧ d.Resolver host = (ip, none)))
    (hbl : ∃ net ∈ d.Blacklist, IPNet.Contains net ip = true) :
    (∃ net ∈ d.Blacklist, IPNet.Contains net ip = true ∧
      (DialContext d ctx proto addr).outcome = .ret none (some (.blacklisted ip net))) ∧
    (∀ e ∈ (DialContext d ctx proto addr).trace, e.isDial = false) ∧
    (DialContext d ctx proto addr).dialer.BytesRead = d.BytesRead ∧
    (DialContext d ctx proto addr).dialer.BytesWritten = d.BytesWritten := by
  obtain ⟨net, hmem, hc, hloop⟩ := blacklistLoop_some ip d.Blacklist hbl
  have htr : ∀ e ∈ (blacklistLoop ip d.Blacklist).2, e.isDial = false := by
    intro e he
    obtain ⟨n, rfl⟩ := blacklistLoop_trace ip d.Blacklist e he
    rfl
  refine ⟨⟨net, hmem, hc, ?_⟩, ?_, by rw [DialContext_dialer], by rw [DialContext_dialer]⟩
  · rcases hres with hk | ⟨hk, hr⟩
    · rw [DialContext_of_host d ctx proto addr host ip hsplit hk,
        dialIP_blocked d ctx proto addr _ ip _ net hloop]
    · rw [DialContext_of_resolved d ctx proto addr host ip hsplit hk hr,
        dialIP_blocked d ctx proto addr _ ip _ net hloop]
  · rcases hres with hk | ⟨hk, hr⟩
    · rw [DialContext_of_host d ctx proto addr host ip hsplit hk,
        dialIP_blocked d ctx proto addr _ ip _ net hloop]
      intro e he
      simp only [List.nil_append] at he
      exact htr e he
    · rw [DialContext_of_resolved d ctx proto addr host ip hsplit hk hr,
        dialIP_blocked d ctx proto addr _ ip _ net hloop]
      intro e he
      simp only [List.cons_append, List.nil_append, List.mem_cons] at he
      rcases he with rfl | he
      · rfl
      · exact htr e he

/-- C1, the override scenario: with `Hosts = {"example.com": 10.0.0.5}` and
`Blacklist = [10.0.0.0/8]`, dialing `"example.com:80"` ends in the blacklist error. -/
theorem DialContext_blacklisted_scenario :
    (sliceTo "example.com:80" (LastIndex "example.com:80" ':') = some "example.com" ∧
      scenarioDialer.Hosts "example.com" = some [10, 0, 0, 5] ∧
      IPNet.Contains net10 [10, 0, 0, 5] = true) ∧
    (DialContext scenarioDialer background "tcp" "example.com:80").outcome
      = .ret none (some (.blacklisted [10, 0, 0, 5] net10)) ∧
    (∀ e ∈ (DialContext scenarioDialer background "tcp" "example.com:80").trace,
      e.isDial = false) ∧
    (DialContext scenarioDialer background "tcp" "example.com:80").dialer.BytesRead
      = scenarioDialer.BytesRead ∧
    (DialContext scenarioDialer background "tcp" "example.com:80").dialer.BytesWritten
      = scenarioDialer.BytesWritten := by
  have h := DialContext_blacklisted scenarioDialer background "tcp" "example.com:80"
    "example.com" [10, 0, 0, 5] (by decide) (Or.inl (by decide))
    ⟨net10, by simp [scenarioDialer], by decide⟩
  obtain ⟨⟨net, hmem, -, hout⟩, h2, h3, h4⟩ := h
  have hnet : net = net10 := by simpa [scenarioDialer] using hmem
  subst hnet
  exact ⟨⟨by decide, by decide, by decide⟩, hout, h2, h3, h4⟩

/-- C4. When the host part of the address is a key of `Hosts`, `DialContext`
makes no `FetchOne` call, every `Contains` call it makes is on `Hosts[host]`, and
its calls are exactly the blacklist checks of `Hosts[host]` followed, when none
matches, by the base dial of the address formatted from `Hosts[host]` and the
port; and a `FetchOne` call is made only on the host and only when the host is
not a key of `Hosts`. -/
theorem DialContext_override (d : Dialer) (ctx : Context) (proto addr host : String)
    (hsplit : sliceTo addr (LastIndex addr ':') = some host) :
    (∀ ip, d.Hosts host = some ip →
      (∀ e ∈ (DialContext d ctx proto addr).trace, e.isFetch = false) ∧
      (∀ net x, Event.Contains net x ∈ (DialContext d ctx proto addr).trace → x = ip) ∧
      ∃ port, sliceFrom addr (LastIndex addr ':' + 1) = some port ∧
        (DialContext d ctx proto addr).trace
          = (blacklistLoop ip d.Blacklist).2 ++
            (if (blacklistLoop ip d.Blacklist).1.isSome = true then []
             else [Event.DialContext ctx proto (target ip port)])) ∧
    (∀ h, Event.FetchOne h ∈ (DialContext d ctx proto addr).trace →
      h = host ∧ d.Hosts host = none) := by
  obtain ⟨k, -, -, -, hport, -, -⟩ := split_at_last_colon addr host hsplit
  constructor
  · intro ip hkey
    have he := DialContext_of_host d ctx proto addr host ip hsplit hkey
    have htrace : (DialContext d ctx proto addr).trace
        = (blacklistLoop ip d.Blacklist).2 ++
          (if (blacklistLoop ip d.Blacklist).1.isSome = true then []
           else [Event.DialContext ctx proto (target ip (String.mk (addr.data.drop (k + 1))))]) := by
      rw [he]
      rcases hb : (blacklistLoop ip d.Blacklist).1 with _ | net
      · rw [dialIP_passed d ctx proto addr _ _ ip [] hb hport]
        simp
      · rw [dialIP_blocked d ctx proto addr _ ip [] net hb]
        simp
    refine ⟨?_, ?_, _, hport, htrace⟩
    · intro e he2
      rw [htrace] at he2
      rcases List.mem_append.mp he2 with h1 | h1
      · exact blacklistLoop_isFetch ip d.Blacklist e h1
      · split_ifs at h1
        · simp at h1
        · simp at h1; subst h1; rfl
    · intro net x hx
      rw [htrace] at hx
      rcases List.mem_append.mp hx with h1 | h1
      · obtain ⟨n, hn⟩ := blacklistLoop_trace ip d.Blacklist _ h1
        injection hn with _ h2
      · split_ifs at h1
        · simp at h1
        · simp at h1
  · intro h hmem
    rcases DialContext_cases d proto addr host hsplit with
      ⟨ip, err, hk, -, he⟩ | ⟨ip, tr, net, hr, -, he⟩ | ⟨ip, tr, port, hr, -, -, he⟩
    · rw [he ctx] at hmem
      simp at hmem
      exact ⟨hmem, hk⟩
    · rw [he ctx] at hmem
      rcases List.mem_append.mp hmem with h1 | h1
      · rcases hr with ⟨-, rfl⟩ | ⟨hk, -, rfl⟩
        · simp at h1
        · simp at h1; exact ⟨h1, hk⟩
      · exact absurd (blacklistLoop_isFetch ip d.Blacklist _ h1) (by simp [Event.isFetch])
    · rw [he ctx] at hmem
      simp only [List.mem_append, List.mem_singleton] at hmem
      rcases hmem with (h1 | h1) | h1
      · rcases hr with ⟨-, rfl⟩ | ⟨hk, -, rfl⟩
        · simp at h1
        · simp at h1; exact ⟨h1, hk⟩
      · exact absurd (blacklistLoop_isFetch ip d.Blacklist _ h1) (by simp [Event.isFetch])
      · cases h1

/-- C4 at the override scenario: `example.com` is a key of `Hosts`, so dialing
`"example.com:80"` makes no resolver call and checks `10.0.0.5`. -/
theorem DialContext_override_scenario :
    sliceTo "example.com:80" (LastIndex "example.com:80" ':') = some "example.com" ∧
    scenarioDialer.Hosts "example.com" = some [10, 0, 0, 5] ∧
    (∀ e ∈ (DialContext scenarioDialer background "tcp" "example.com:80").trace,
      e.isFetch = false) ∧
    (∀ net x, Event.Contains net x
        ∈ (DialContext scenarioDialer background "tcp" "example.com:80").trace →
      x = [10, 0, 0, 5]) :=
  ⟨by decide, by decide,
    ((DialContext_override scenarioDialer background "tcp" "example.com:80" "example.com"
      (by decide)).1 [10, 0, 0, 5] (by decide)).1,
    ((DialContext_override scenarioDialer background "tcp" "example.com:80" "example.com"
      (by decide)).1 [10, 0, 0, 5] (by decide)).2.1⟩

/-- C5. When resolution succeeds and no blacklist range contains the IP, the
base dial is called exactly once, with the caller's context and protocol and the
address made of the formatted IP, a colon and the port, where the port is what
follows the last colon of the requested address; the formatted IP is its text in
square brackets for an IPv6 address and its bare text for an IPv4 address. -/
theorem DialContext_address (d : Dialer) (ctx : Context) (proto addr host : String) (ip : IP)
    (hsplit : sliceTo addr (LastIndex addr ':') = some host)
    (hres : d.Hosts host = some ip ∨ (d.Hosts host = none ∧ d.Resolver host = (ip, none)))
    (hbl : ∀ net ∈ d.Blacklist, IPNet.Contains net ip = false) :
    ∃ port, sliceFrom addr (LastIndex addr ':' + 1) = some port ∧
      addr = host ++ ":" ++ port ∧ ':' ∉ port.data ∧
      (DialContext d ctx proto addr).trace.filter Event.isDial
        = [Event.DialContext ctx proto (target ip port)] ∧
      (DialContext d ctx proto addr).outcome = afterDial (d.Dialer ctx proto (target ip port)) ∧
      (IsIPv6 ip → target ip port = "[" ++ IP.String ip ++ "]" ++ ":" ++ port) ∧
      (IsIPv4 ip → target ip port = IP.String ip ++ ":" ++ port) := by
  obtain ⟨k, -, -, hhost, hport, hdata, hnc⟩ := split_at_last_colon addr host hsplit
  have hb := blacklistLoop_none ip d.Blacklist hbl
  refine ⟨_, hport, String_append3 addr host k hhost hdata, hnc, ?_, ?_, ?_, ?_⟩
  · have hf : List.filter Event.isDial (blacklistLoop ip d.Blacklist).2 = [] :=
      List.filter_eq_nil_iff.mpr
        (fun e he => by simp [blacklistLoop_isDial ip d.Blacklist e he])
    rcases hres with hk | ⟨hk, hr⟩
    · rw [DialContext_of_host d ctx proto addr host ip hsplit hk,
        dialIP_passed d ctx proto addr _ _ ip [] hb hport]
      simp [List.filter_append, hf, Event.isDial]
    · rw [DialContext_of_resolved d ctx proto addr host ip hsplit hk hr,
        dialIP_passed d ctx proto addr _ _ ip _ hb hport]
      simp [List.filter_append, List.filter_cons, hf, Event.isDial]
  · rcases hres with hk | ⟨hk, hr⟩
    · rw [DialContext_of_host d ctx proto addr host ip hsplit hk,
        dialIP_passed d ctx proto addr _ _ ip [] hb hport]
    · rw [DialContext_of_resolved d ctx proto addr host ip hsplit hk hr,
        dialIP_passed d ctx proto addr _ _ ip _ hb hport]
  · intro h6
    unfold target
    rw [if_pos (String_ipv6_colon ip h6)]
  · intro h4
    unfold target
    rw [if_neg (by rw [String_ipv4_no_colon ip h4]; decide)]

/-- C5 at two dials: the override `localhost -> ::1` is dialed as `[::1]:80`, and
`example.org`, resolved to `93.184.216.34`, as `93.184.216.34:443`. -/
theorem DialContext_address_scenario :
    (DialContext loopbackDialer background "tcp" "localhost:80").trace.filter Event.isDial
      = [Event.DialContext background "tcp" "[::1]:80"] ∧
    (DialContext scenarioDialer background "tcp" "example.org:443").trace.filter Event.isDial
      = [Event.DialContext background "tcp" "93.184.216.34:443"] := by
  obtain ⟨p1, hp1, -, -, h1, -, -, -⟩ :=
    DialContext_address loopbackDialer background "tcp" "localhost:80" "localhost"
      [0, 0, 0, 0, 0, 0, 0, 0, 0, 0, 0, 0, 0, 0, 0, 1] (by decide) (Or.inl (by decide))
      (by simp [loopbackDialer])
  obtain ⟨p2, hp2, -, -, h2, -, -, -⟩ :=
    DialContext_address scenarioDialer background "tcp" "example.org:443" "example.org"
      [93, 184, 216, 34] (by decide) (Or.inr ⟨by decide, by decide⟩)
      (by simp [scenarioDialer]; decide)
  have e1 : p1 = "80" := by
    have : sliceFrom "localhost:80" (LastIndex "localhost:80" ':' + 1) = some "80" := by decide
    rw [this] at hp1
    exact (Option.some.inj hp1).symm
  have e2 : p2 = "443" := by
    have : sliceFrom "example.org:443" (LastIndex "example.org:443" ':' + 1) = some "443" := by
      decide
    rw [this] at hp2
    exact (Option.some.inj hp2).symm
  subst e1 e2
  have t1 : target [0, 0, 0, 0, 0, 0, 0, 0, 0, 0, 0, 0, 0, 0, 0, 1] "80" = "[::1]:80" := by decide
  have t2 : target [93, 184, 216, 34] "443" = "93.184.216.34:443" := by decide
  rw [t1] at h1
  rw [t2] at h2
  exact ⟨h1, h2⟩

/-- C7 as stated fails: with a context cancelled before the call, a dial of a
blacklisted override ends in the blacklist error, and a dial of an unknown host
ends in the resolver's error; neither is the context's cancellation error. -/
theorem DialContext_cancelled_not_preempted :
    cancelled.Err = some (GoError.other "context canceled") ∧
    (DialContext scenarioDialer cancelled "tcp" "example.com:80").outcome
      = .ret none (some (.blacklisted [10, 0, 0, 5] net10)) ∧
    some (GoError.blacklisted [10, 0, 0, 5] net10) ≠ cancelled.Err ∧
    (DialContext scenarioDialer cancelled "tcp" "nowhere.test:80").outcome
      = .ret none (some (.other "no such host")) ∧
    some (GoError.other "no such host") ≠ cancelled.Err :=
  ⟨rfl, rfl, by decide, rfl, by decide⟩

/-- C7, amended. Every dial leaves both counters as they were.  `DialContext`
does not look at the context and calls the resolver without it:

* when the resolver fails, its error is returned with a nil connection and the
  base dial is not called, whatever the state of the context;
* when the IP is blacklisted, the blacklist error is returned with a nil
  connection and the base dial is not called, whatever the state of the context;
* when resolution and the blacklist check pass, the base dial is called exactly
  once, with the caller's context and protocol and the formatted address, and
  `DialContext` returns what that call returned: its error (such as the
  context's cancellation error) unchanged with a nil connection, or the wrapped
  connection.

So a dial that ends without calling the base dial ends the same way and makes
the same calls under any other context, and a base-dial call in the trace is the
one that carries the caller's context and decides the outcome. -/
theorem DialContext_context (d : Dialer) (ctx : Context) (proto addr : String) :
    ((DialContext d ctx proto addr).dialer.BytesRead = d.BytesRead ∧
      (DialContext d ctx proto addr).dialer.BytesWritten = d.BytesWritten) ∧
    (∀ host ip err, sliceTo addr (LastIndex addr ':') = some host →
      d.Hosts host = none → d.Resolver host = (ip, some err) →
      (DialContext d ctx proto addr).outcome = .ret none (some err) ∧
      (DialContext d ctx proto addr).trace = [Event.FetchOne host]) ∧
    (∀ host ip, sliceTo addr (LastIndex addr ':') = some host →
      (d.Hosts host = some ip ∨ (d.Hosts host = none ∧ d.Resolver host = (ip, none))) →
      (∃ net ∈ d.Blacklist, IPNet.Contains net ip = true) →
      ∃ net ∈ d.Blacklist, IPNet.Contains net ip = true ∧
        (DialContext d ctx proto addr).outcome = .ret none (some (.blacklisted ip net)) ∧
        ∀ e ∈ (DialContext d ctx proto addr).trace, e.isDial = false) ∧
    (∀ host ip, sliceTo addr (LastIndex addr ':') = some host →
      (d.Hosts host = some ip ∨ (d.Hosts host = none ∧ d.Resolver host = (ip, none))) →
      (∀ net ∈ d.Blacklist, IPNet.Contains net ip = false) →
      ∃ port, sliceFrom addr (LastIndex addr ':' + 1) = some port ∧
        (DialContext d ctx proto addr).trace.filter Event.isDial
          = [Event.DialContext ctx proto (target ip port)] ∧
        (DialContext d ctx proto addr).outcome
          = afterDial (d.Dialer ctx proto (target ip port)) ∧
        (∀ err, d.Dialer ctx proto (target ip port) = .error err →
          (DialContext d ctx proto addr).outcome = .ret none (some err)) ∧
        (∀ conn, d.Dialer ctx proto (target ip port) = .ok conn →
          (DialContext d ctx proto addr).outcome = .ret (some (wrapConn conn)) none)) ∧
    ((∀ e ∈ (DialContext d ctx proto addr).trace, e.isDial = false) →
      ∀ ctx2, DialContext d ctx2 proto addr = DialContext d ctx proto addr) ∧
    (∀ c p a, Event.DialContext c p a ∈ (DialContext d ctx proto addr).trace →
      c = ctx ∧ p = proto ∧
      (DialContext d ctx proto addr).outcome = afterDial (d.Dialer ctx proto a)) := by
  refine ⟨⟨by rw [DialContext_dialer], by rw [DialContext_dialer]⟩, ?_, ?_, ?_, ?_, ?_⟩
  · intro host ip err hs hk hr
    rw [DialContext_of_unresolved d ctx proto addr host ip err hs hk hr]
    exact ⟨rfl, rfl⟩
  · intro host ip hs hres hbl
    exact DialContext_stops_at_blacklist d ctx proto addr host ip hs hres hbl
  · intro host ip hs hres hbl
    obtain ⟨port, hport, htr, hout⟩ :=
      DialContext_reaches_dial d ctx proto addr host ip hs hres hbl
    refine ⟨port, hport, htr, hout, ?_, ?_⟩
    · intro err he
      rw [hout, he]
      rfl
    · intro conn he
      rw [hout, he]
      rfl
  · intro hno ctx2
    rcases hs : sliceTo addr (LastIndex addr ':') with _ | host
    · rw [DialContext_of_nosplit d ctx proto addr hs, DialContext_of_nosplit d ctx2 proto addr hs]
    · rcases DialContext_cases d proto addr host hs with
        ⟨ip, err, -, -, he⟩ | ⟨ip, tr, net, -, -, he⟩ | ⟨ip, tr, port, -, -, -, he⟩
      · rw [he ctx, he ctx2]
      · rw [he ctx, he ctx2]
      · have := hno (Event.DialContext ctx proto (target ip port)) (by rw [he ctx]; simp)
        exact absurd this (by simp [Event.isDial])
  · intro c p a hmem
    rcases hs : sliceTo addr (LastIndex addr ':') with _ | host
    · rw [DialContext_of_nosplit d ctx proto addr hs] at hmem
      simp at hmem
    · rcases DialContext_cases d proto addr host hs with
        ⟨ip, err, -, -, he⟩ | ⟨ip, tr, net, hr, -, he⟩ | ⟨ip, tr, port, hr, -, -, he⟩
      · rw [he ctx] at hmem
        simp at hmem
      · rw [he ctx] at hmem
        rcases List.mem_append.mp hmem with h1 | h1
        · exact absurd (Resolved_isDial d host ip tr hr _ h1) (by simp [Event.isDial])
        · exact absurd (blacklistLoop_isDial ip d.Blacklist _ h1) (by simp [Event.isDial])
      · rw [he ctx] at hmem ⊢
        simp only [List.mem_append, List.mem_singleton] at hmem
        rcases hmem with (h1 | h1) | h1
        · exact absurd (Resolved_isDial d host ip tr hr _ h1) (by simp [Event.isDial])
        · exact absurd (blacklistLoop_isDial ip d.Blacklist _ h1) (by simp [Event.isDial])
        · injection h1 with h1 h2 h3
          subst h1 h2 h3
          exact ⟨rfl, rfl, rfl⟩

/-- C7, amended, at a dial under a cancelled context whose host resolves to an
IP outside the blacklist: the base dial is called once with the cancelled
context, and the cancellation error it returns is what `DialContext` returns,
with a nil connection and the counters untouched. -/
theorem DialContext_context_cancelled_dial :
    (sliceTo "example.org:443" (LastIndex "example.org:443" ':') = some "example.org" ∧
      contextDialer.Hosts "example.org" = none ∧
      contextDialer.Resolver "example.org" = ([93, 184, 216, 34], none) ∧
      (∀ net ∈ contextDialer.Blacklist, IPNet.Contains net [93, 184, 216, 34] = false)) ∧
    (DialContext contextDialer cancelled "tcp" "example.org:443").trace.filter Event.isDial
      = [Event.DialContext cancelled "tcp" "93.184.216.34:443"] ∧
    (DialContext contextDialer cancelled "tcp" "example.org:443").outcome
      = .ret none cancelled.Err ∧
    (DialContext contextDialer cancelled "tcp" "example.org:443").dialer.BytesRead
      = contextDialer.BytesRead ∧
    (DialContext contextDialer cancelled "tcp" "example.org:443").dialer.BytesWritten
      = contextDialer.BytesWritten := by
  have hbl : ∀ net ∈ contextDialer.Blacklist, IPNet.Contains net [93, 184, 216, 34] = false := by
    intro net hnet
    have : net = net10 := by simpa [contextDialer] using hnet
    subst this
    decide
  obtain ⟨⟨h1, h2⟩, -, -, hpass, -, -⟩ :=
    DialContext_context contextDialer cancelled "tcp" "example.org:443"
  obtain ⟨port, hport, htr, -, herr, -⟩ :=
    hpass "example.org" [93, 184, 216, 34] (by decide) (Or.inr ⟨by decide, by decide⟩) hbl
  have e : port = "443" := by
    have : sliceFrom "example.org:443" (LastIndex "example.org:443" ':' + 1) = some "443" := by
      decide
    rw [this] at hport
    exact (Option.some.inj hport).symm
  subst e
  have t : target [93, 184, 216, 34] "443" = "93.184.216.34:443" := by decide
  rw [t] at htr herr
  exact ⟨⟨by decide, by decide, by decide, hbl⟩, htr,
    herr (GoError.other "context canceled") rfl, h1, h2⟩

/-- C10 fails on the code at an address without a colon: `strings.LastIndex`
returns `-1`, the slice `addr[:-1]` is out of range, and `DialContext` panics
instead of returning a `(connection, error)` pair. -/
theorem DialContext_no_colon_panics (d : Dialer) (ctx : Context) (proto : String) :
    LastIndex "localhost" ':' = -1 ∧
    sliceTo "localhost" (LastIndex "localhost" ':') = none ∧
    DialContext d ctx proto "localhost" = ⟨.panic, [], d⟩ :=
  ⟨by decide, by decide, DialContext_of_nosplit d ctx proto "localhost" (by decide)⟩

/-! ## Connections, trails and configuration -/

/-- C3. `Conn.Read` returns exactly the pair the wrapped connection's `Read`
returned.  When `n > 0` the counter its `BytesRead` pointer refers to becomes the
`int64` sum of its old value and `n` (the plain sum whenever that fits in an
`int64`), whether or not the error is nil; when `n <= 0` memory is unchanged; in
both cases every other counter, the write counter of a connection the dialer made
among them, keeps its value.  `Conn.Write` does the same with the counter its
`BytesWritten` pointer refers to. -/
theorem Conn_Read_Write (c : Conn) (b : List Byte) (d : Dialer) :
    ((c.Read b d).1 = c.Conn.Read b ∧
      (0 < (c.Conn.Read b).1.val →
        (c.Read b d).2.load c.BytesRead = Int64.add (d.load c.BytesRead) (c.Conn.Read b).1 ∧
        ((d.load c.BytesRead).val + (c.Conn.Read b).1.val ≤ 9223372036854775807 →
          ((c.Read b d).2.load c.BytesRead).val
            = (d.load c.BytesRead).val + (c.Conn.Read b).1.val)) ∧
      ((c.Conn.Read b).1.val ≤ 0 → (c.Read b d).2 = d) ∧
      (∀ p, p ≠ c.BytesRead → (c.Read b d).2.load p = d.load p) ∧
      (((wrapConn c.Conn).Read b d).2.BytesWritten = d.BytesWritten)) ∧
    ((c.Write b d).1 = c.Conn.Write b ∧
      (0 < (c.Conn.Write b).1.val →
        (c.Write b d).2.load c.BytesWritten
          = Int64.add (d.load c.BytesWritten) (c.Conn.Write b).1 ∧
        ((d.load c.BytesWritten).val + (c.Conn.Write b).1.val ≤ 9223372036854775807 →
          ((c.Write b d).2.load c.BytesWritten).val
            = (d.load c.BytesWritten).val + (c.Conn.Write b).1.val)) ∧
      ((c.Conn.Write b).1.val ≤ 0 → (c.Write b d).2 = d) ∧
      (∀ p, p ≠ c.BytesWritten → (c.Write b d).2.load p = d.load p) ∧
      (((wrapConn c.Conn).Write b d).2.BytesRead = d.BytesRead)) := by
  have hR : ∀ k : Conn, ∀ p, p ≠ k.BytesRead → (k.Read b d).2.load p = d.load p := by
    intro k p hp
    unfold Conn.Read
    dsimp only
    split_ifs
    · simp only [AddInt64, Dialer_load_store, if_neg hp]
    · rfl
  have hW : ∀ k : Conn, ∀ p, p ≠ k.BytesWritten → (k.Write b d).2.load p = d.load p := by
    intro k p hp
    unfold Conn.Write
    dsimp only
    split_ifs
    · simp only [AddInt64, Dialer_load_store, if_neg hp]
    · rfl
  refine ⟨⟨?_, ?_, ?_, hR c, ?_⟩, ⟨?_, ?_, ?_, hW c, ?_⟩⟩
  · unfold Conn.Read
    dsimp only
    split_ifs <;> rfl
  · intro hn
    have e : (c.Read b d).2.load c.BytesRead
        = Int64.add (d.load c.BytesRead) (c.Conn.Read b).1 := by
      unfold Conn.Read
      dsimp only
      rw [if_pos hn]
      simp only [AddInt64, Dialer_load_store, if_true]
    refine ⟨e, fun hfit => ?_⟩
    rw [e]
    exact Int64_add_exact _ _ hfit (le_of_lt hn)
  · intro hn
    unfold Conn.Read
    dsimp only
    rw [if_neg (not_lt.mpr hn)]
  · exact hR (wrapConn c.Conn) CounterRef.BytesWritten (fun h => CounterRef.noConfusion h)
  · unfold Conn.Write
    dsimp only
    split_ifs <;> rfl
  · intro hn
    have e : (c.Write b d).2.load c.BytesWritten
        = Int64.add (d.load c.BytesWritten) (c.Conn.Write b).1 := by
      unfold Conn.Write
      dsimp only
      rw [if_pos hn]
      simp only [AddInt64, Dialer_load_store, if_true]
    refine ⟨e, fun hfit => ?_⟩
    rw [e]
    exact Int64_add_exact _ _ hfit (le_of_lt hn)
  · intro hn
    unfold Conn.Write
    dsimp only
    rw [if_neg (not_lt.mpr hn)]
  · exact hW (wrapConn c.Conn) CounterRef.BytesRead (fun h => CounterRef.noConfusion h)

/-- C6. The trail `GetTrail(startTime, endTime, tags)` returns has
`GetTime() = endTime`, `GetTags() = tags`, and `GetSamples()` is the three
samples data-sent (the drained bytes written, as a `float64`), data-received
(the drained bytes read, as a `float64`), iteration-duration (`stats.D` of
`endTime.Sub(startTime)`) in this order, each with `Tags = tags` and
`Time = endTime`. -/
theorem GetTrail_samples (S : Stats) (d : Dialer) (startTime endTime : S.Time)
    (tags : S.SampleTags) :
    (GetTrail S d startTime endTime tags).1.GetTime = endTime ∧
    (GetTrail S d startTime endTime tags).1.GetTags = tags ∧
    (GetTrail S d startTime endTime tags).1.BytesWritten = d.BytesWritten ∧
    (GetTrail S d startTime endTime tags).1.BytesRead = d.BytesRead ∧
    (GetTrail S d startTime endTime tags).1.GetSamples
      = [⟨endTime, S.DataSent, S.float64 d.BytesWritten, tags⟩,
         ⟨endTime, S.DataReceived, S.float64 d.BytesRead, tags⟩,
         ⟨endTime, S.IterationDuration, S.D (S.Sub endTime startTime), tags⟩] ∧
    (GetTrail S d startTime endTime tags).1.GetSamples.length = 3 ∧
    (∀ s ∈ (GetTrail S d startTime endTime tags).1.GetSamples,
      s.Tags = tags ∧ s.Time = endTime) := by
  refine ⟨rfl, rfl, rfl, rfl, rfl, rfl, ?_⟩
  intro s hs
  have : (GetTrail S d startTime endTime tags).1.GetSamples
      = [⟨endTime, S.DataSent, S.float64 d.BytesWritten, tags⟩,
         ⟨endTime, S.DataReceived, S.float64 d.BytesRead, tags⟩,
         ⟨endTime, S.IterationDuration, S.D (S.Sub endTime startTime), tags⟩] := rfl
  rw [this] at hs
  simp only [List.mem_cons, List.mem_singleton, List.mem_nil_iff, or_false] at hs
  rcases hs with rfl | rfl | rfl <;> exact ⟨rfl, rfl⟩

/-- C9. Each field of `c.Apply(cfg)` is the field of `cfg` when `cfg` sets it (a
non-empty string, `Insecure = true`, `PayloadSize > 0`, a non-empty
`TagsAsFields`) and the field of `c` otherwise; hence `c.Apply(Config{}) = c`
and applying the same `cfg` twice is the same as applying it once. -/
theorem Config_Apply_override (c cfg : Config) :
    ((c.Apply cfg).Addr = (if cfg.Addr ≠ "" then cfg.Addr else c.Addr) ∧
      (c.Apply cfg).Username = (if cfg.Username ≠ "" then cfg.Username else c.Username) ∧
      (c.Apply cfg).Password = (if cfg.Password ≠ "" then cfg.Password else c.Password) ∧
      (c.Apply cfg).Insecure = (if cfg.Insecure = true then true else c.Insecure) ∧
      (c.Apply cfg).PayloadSize
        = (if cfg.PayloadSize.val > 0 then cfg.PayloadSize else c.PayloadSize) ∧
      (c.Apply cfg).DB = (if cfg.DB ≠ "" then cfg.DB else c.DB) ∧
      (c.Apply cfg).Precision = (if cfg.Precision ≠ "" then cfg.Precision else c.Precision) ∧
      (c.Apply cfg).Retention = (if cfg.Retention ≠ "" then cfg.Retention else c.Retention) ∧
      (c.Apply cfg).Consistency
        = (if cfg.Consistency ≠ "" then cfg.Consistency else c.Consistency) ∧
      (c.Apply cfg).TagsAsFields
        = (if cfg.TagsAsFields.length > 0 then cfg.TagsAsFields else c.TagsAsFields)) ∧
    c.Apply Config.zero = c ∧
    (c.Apply cfg).Apply cfg = c.Apply cfg := by
  refine ⟨?_, ?_, ?_⟩
  · obtain ⟨g1, g2, g3, g4, g5, g6, g7, g8, g9, g10⟩ := Config_Apply_fields c cfg
    refine ⟨g1, g2, g3, ?_, g5, g6, g7, g8, g9, g10⟩
    rw [g4]
    split_ifs with h
    · exact h
    · rfl
  · obtain ⟨h1, h2, h3, h4, h5, h6, h7, h8, h9, h10⟩ := Config_Apply_fields c Config.zero
    apply Config_ext
    · rw [h1]; rfl
    · rw [h2]; rfl
    · rw [h3]; rfl
    · rw [h4]; rfl
    · rw [h5]; rfl
    · rw [h6]; rfl
    · rw [h7]; rfl
    · rw [h8]; rfl
    · rw [h9]; rfl
    · rw [h10]; rfl
  · obtain ⟨h1, h2, h3, h4, h5, h6, h7, h8, h9, h10⟩ := Config_Apply_fields (c.Apply cfg) cfg
    obtain ⟨g1, g2, g3, g4, g5, g6, g7, g8, g9, g10⟩ := Config_Apply_fields c cfg
    apply Config_ext
    · rw [h1, g1]; split_ifs <;> rfl
    · rw [h2, g2]; split_ifs <;> rfl
    · rw [h3, g3]; split_ifs <;> rfl
    · rw [h4, g4]; split_ifs <;> rfl
    · rw [h5, g5]; split_ifs <;> rfl
    · rw [h6, g6]; split_ifs <;> rfl
    · rw [h7, g7]; split_ifs <;> rfl
    · rw [h8, g8]; split_ifs <;> rfl
    · rw [h9, g9]; split_ifs <;> rfl
    · rw [h10, g10]; split_ifs <;> rfl

/-! ## Counters between and across drains -/

/-- C2 as stated fails: two connections made by a dialer with zeroed counters
each read `2^62` bytes, and the drain returns `BytesRead = -2^63`, not
`2 * 2^62`. -/
theorem GetTrail_sum_overflows :
    (freshDialer.BytesRead = Int64.zero ∧ freshDialer.BytesWritten = Int64.zero) ∧
    (∀ i, i < 2 →
      bytesReadBy i [Step.Read 0 hugeConn [], Step.Read 1 hugeConn []] = 4611686018427387904 ∧
      bytesWrittenBy i [Step.Read 0 hugeConn [], Step.Read 1 hugeConn []] = 0) ∧
    (GetTrail plainStats
      (runSteps [Step.Read 0 hugeConn [], Step.Read 1 hugeConn []] freshDialer)
      (0 : Int) (1 : Int) []).1.BytesRead.val = -9223372036854775808 ∧
    (GetTrail plainStats
      (runSteps [Step.Read 0 hugeConn [], Step.Read 1 hugeConn []] freshDialer)
      (0 : Int) (1 : Int) []).1.BytesRead.val ≠ 2 * 4611686018427387904 := by
  refine ⟨⟨rfl, rfl⟩, ?_, by decide, by decide⟩
  intro i hi
  interval_cases i <;> decide

/-- C2, amended. `GetTrail` returns the two counters as they were and leaves
both at zero.  Starting from zeroed counters, after `N` connections made by the
dialer have each read exactly `R` bytes and written exactly `W` bytes, one
`GetTrail` returns `N*R` and `N*W` reduced to `int64`, which are `N*R` and `N*W`
themselves whenever these do not exceed `2^63 - 1`; a `GetTrail` right after it
returns `(0, 0)`. -/
theorem GetTrail_drains (S : Stats) (d : Dialer) (t0 t1 t2 t3 : S.Time)
    (tags tags2 : S.SampleTags) (N : Nat) (R W : Int) (steps : List Step)
    (hzero : d.BytesRead = Int64.zero ∧ d.BytesWritten = Int64.zero)
    (hconn : ∀ s ∈ steps, ∀ i, s.conn = some i → i < N)
    (heach : ∀ i, i < N → bytesReadBy i steps = R ∧ bytesWrittenBy i steps = W) :
    (∀ e : Dialer,
      (GetTrail S e t0 t1 tags).1.BytesRead = e.BytesRead ∧
      (GetTrail S e t0 t1 tags).1.BytesWritten = e.BytesWritten ∧
      (GetTrail S e t0 t1 tags).2.BytesRead = Int64.zero ∧
      (GetTrail S e t0 t1 tags).2.BytesWritten = Int64.zero) ∧
    (GetTrail S (runSteps steps d) t0 t1 tags).1.BytesRead.val = wrap64 (N * R) ∧
    (GetTrail S (runSteps steps d) t0 t1 tags).1.BytesWritten.val = wrap64 (N * W) ∧
    ((N : Int) * R ≤ 9223372036854775807 →
      (GetTrail S (runSteps steps d) t0 t1 tags).1.BytesRead.val = N * R) ∧
    ((N : Int) * W ≤ 9223372036854775807 →
      (GetTrail S (runSteps steps d) t0 t1 tags).1.BytesWritten.val = N * W) ∧
    (GetTrail S (GetTrail S (runSteps steps d) t0 t1 tags).2 t2 t3 tags2).1.BytesRead
      = Int64.zero ∧
    (GetTrail S (GetTrail S (runSteps steps d) t0 t1 tags).2 t2 t3 tags2).1.BytesWritten
      = Int64.zero := by
  obtain ⟨hr0, hw0⟩ := hzero
  have hsumR : (steps.map Step.read).sum = N * R := by
    rw [sum_by_conn Step.read (fun s hs => by cases s <;> simp_all [Step.conn, Step.read]) N
      steps hconn]
    have e : ∀ i ∈ Finset.range N,
        ((steps.filter (fun s => s.conn = some i)).map Step.read).sum = R :=
      fun i hi => (heach i (Finset.mem_range.mp hi)).1
    rw [Finset.sum_congr rfl e]
    simp
  have hsumW : (steps.map Step.written).sum = N * W := by
    rw [sum_by_conn Step.written
      (fun s hs => by cases s <;> simp_all [Step.conn, Step.written]) N steps hconn]
    have e : ∀ i ∈ Finset.range N,
        ((steps.filter (fun s => s.conn = some i)).map Step.written).sum = W :=
      fun i hi => (heach i (Finset.mem_range.mp hi)).2
    rw [Finset.sum_congr rfl e]
    simp
  have hnnR : 0 ≤ (steps.map Step.read).sum :=
    List.sum_nonneg (fun x hx => by
      obtain ⟨s, -, rfl⟩ := List.mem_map.mp hx
      exact (Step_read_nonneg s).1)
  have hnnW : 0 ≤ (steps.map Step.written).sum :=
    List.sum_nonneg (fun x hx => by
      obtain ⟨s, -, rfl⟩ := List.mem_map.mp hx
      exact (Step_read_nonneg s).2)
  obtain ⟨c1, c2⟩ := runSteps_counters steps d
  rw [hr0, hsumR] at c1
  rw [hw0, hsumW] at c2
  have z : (Int64.zero : Int64).val = 0 := rfl
  rw [z, zero_add] at c1 c2
  rw [hsumR] at hnnR
  rw [hsumW] at hnnW
  refine ⟨fun e => GetTrail_swap S e t0 t1 tags, c1, c2, ?_, ?_, rfl, rfl⟩
  · intro h
    exact c1.trans (wrap64_id _ (by omega) h)
  · intro h
    exact c2.trans (wrap64_id _ (by omega) h)

/-- C2 at the example: one connection reads 100 bytes and writes 50; the drain
returns `BytesRead = 100` and `BytesWritten = 50`, and the next one `(0, 0)`. -/
theorem GetTrail_drains_example :
    (GetTrail plainStats
      (runSteps [Step.Read 0 (steadyConn ⟨100, by decide⟩ ⟨50, by decide⟩) [],
        Step.Write 0 (steadyConn ⟨100, by decide⟩ ⟨50, by decide⟩) []] freshDialer)
      (0 : Int) (1 : Int) []).1.BytesRead.val = 100 ∧
    (GetTrail plainStats
      (runSteps [Step.Read 0 (steadyConn ⟨100, by decide⟩ ⟨50, by decide⟩) [],
        Step.Write 0 (steadyConn ⟨100, by decide⟩ ⟨50, by decide⟩) []] freshDialer)
      (0 : Int) (1 : Int) []).1.BytesWritten.val = 50 ∧
    (GetTrail plainStats (GetTrail plainStats
      (runSteps [Step.Read 0 (steadyConn ⟨100, by decide⟩ ⟨50, by decide⟩) [],
        Step.Write 0 (steadyConn ⟨100, by decide⟩ ⟨50, by decide⟩) []] freshDialer)
      (0 : Int) (1 : Int) []).2 (1 : Int) (2 : Int) []).1.BytesRead = Int64.zero ∧
    (GetTrail plainStats (GetTrail plainStats
      (runSteps [Step.Read 0 (steadyConn ⟨100, by decide⟩ ⟨50, by decide⟩) [],
        Step.Write 0 (steadyConn ⟨100, by decide⟩ ⟨50, by decide⟩) []] freshDialer)
      (0 : Int) (1 : Int) []).2 (1 : Int) (2 : Int) []).1.BytesWritten = Int64.zero := by
  have h := GetTrail_drains plainStats freshDialer (0 : Int) (1 : Int) (1 : Int) (2 : Int) [] [] 1 100 50
    [Step.Read 0 (steadyConn ⟨100, by decide⟩ ⟨50, by decide⟩) [],
      Step.Write 0 (steadyConn ⟨100, by decide⟩ ⟨50, by decide⟩) []]
    ⟨rfl, rfl⟩
    (by
      intro s hs i hi
      simp only [List.mem_cons, List.mem_singleton, List.mem_nil_iff, or_false] at hs
      rcases hs with rfl | rfl <;> simp [Step.conn] at hi <;> omega)
    (by
      intro i hi
      interval_cases i
      decide)
  obtain ⟨-, -, -, h3, h4, h5, h6⟩ := h
  exact ⟨by simpa using h3 (by decide), by simpa using h4 (by decide), h5, h6⟩

/-- C8 as stated fails: from zeroed counters a `Read` returning `n = 2^63 - 1`
and then a `Read` returning `n = 1` take `BytesRead` to `2^63 - 1` and then to
`-2^63`, which is smaller. -/
theorem counters_wrap_around :
    ((Step.Read 0 maxConn []).run freshDialer).BytesRead.val = 9223372036854775807 ∧
    ((Step.Read 0 unitConn []).run ((Step.Read 0 maxConn []).run freshDialer)).BytesRead.val
      = -9223372036854775808 ∧
    ((Step.Read 0 unitConn []).run ((Step.Read 0 maxConn []).run freshDialer)).BytesRead.val
      < ((Step.Read 0 maxConn []).run freshDialer).BytesRead.val := by
  refine ⟨by decide, by decide, by decide⟩

/-- C8, amended. A step between two drains (a `DialContext`, or a `Read` or
`Write` on a connection the dialer made) that does not take a counter past
`2^63 - 1` leaves each counter greater than or equal to what it was: the counter
grows by exactly the bytes the step read or wrote. -/
theorem counters_monotone (d : Dialer) (s : Step)
    (hr : d.BytesRead.val + s.read ≤ 9223372036854775807)
    (hw : d.BytesWritten.val + s.written ≤ 9223372036854775807) :
    d.BytesRead.val ≤ (s.run d).BytesRead.val ∧
    d.BytesWritten.val ≤ (s.run d).BytesWritten.val ∧
    (s.run d).BytesRead.val = d.BytesRead.val + s.read ∧
    (s.run d).BytesWritten.val = d.BytesWritten.val + s.written := by
  obtain ⟨g1, g2⟩ := Step_run_read s d
  obtain ⟨n1, n2⟩ := Step_read_nonneg s
  have b1 := d.BytesRead.property.1
  have b2 := d.BytesWritten.property.1
  rw [wrap64_id _ (by omega) hr] at g1
  rw [wrap64_id _ (by omega) hw] at g2
  refine ⟨by omega, by omega, g1, g2⟩

/-- C8 at a `Read` of 1 byte on a fresh dialer: `BytesRead` goes from 0 to 1. -/
theorem counters_monotone_example :
    freshDialer.BytesRead.val ≤ ((Step.Read 0 unitConn []).run freshDialer).BytesRead.val ∧
    ((Step.Read 0 unitConn []).run freshDialer).BytesRead.val = 1 := by
  have h := counters_monotone freshDialer (Step.Read 0 unitConn []) (by decide) (by decide)
  exact ⟨h.1, by decide⟩

end K6
